import Mathlib

/-!
# Verification of the contour `TextureAtlasAllocator`

A shallow embedding of `src/terminal_renderer/Atlas.cpp` (class
`TextureAtlasAllocator`): a shelf-packing texture-atlas allocator with an
exact-size free-list and multi-layer / multi-instance growth.

Machine integers of the C++ source (`int`) are modelled as `Int`; the
values involved stay far from any overflow boundary in every statement
below, so no wrap-around modelling is required.  The backend
(`AtlasBackend`) is modelled as a trace of emitted events.
-/

namespace Atlas

/-- `TextureAtlasAllocator::Offset`: instance id and x/y/z position. -/
structure Offset where
  i : Int
  x : Int
  y : Int
  z : Int
  deriving DecidableEq, Repr

/-- `TextureInfo`: the immutable placement record built by
`appendTextureInfo` (Atlas.cpp lines 197-222).  The source additionally
stores four normalized texture coordinates (`relativeX` etc., the float
divisions `static_cast<float>(x) / width_`, ...): they are derived
read-only data — a pure function of `x`, `y`, `width`, `height` and the
page geometry — never consulted by the allocator, and floating point lies
outside this embedding, so those four fields are not modelled. -/
structure TextureInfo where
  atlas : Int
  atlasName : String
  x : Int
  y : Int
  z : Int
  width : Int
  height : Int
  targetWidth : Int
  targetHeight : Int
  user : Int
  deriving DecidableEq, Repr

/-- Backend notification events (`AtlasBackend` calls). `uploadTexture`
carries the placed record and the pixel format of the call; the pixel
buffer itself carries no information relevant to the allocator. -/
inductive Event where
  | createAtlas (id : Int)
  | destroyAtlas (id : Int)
  | uploadTexture (info : TextureInfo) (fmt : Int)
  deriving DecidableEq, Repr

/-- Construction-time configuration of `TextureAtlasAllocator` (immutable
after construction).  `horizontalGap`/`verticalGap` are the constants
`HorizontalGap`/`VerticalGap` declared in the class header; their numeric
values are not fixed here, so every statement is parametric in them. -/
structure Config where
  instanceBaseId : Int
  maxInstances : Int
  depth : Int
  width : Int
  height : Int
  horizontalGap : Int
  verticalGap : Int
  format : Int
  name : String
  deriving DecidableEq, Repr

/-- The mutable allocator state: packing cursor, free-list (`discarded_`,
a map from exact size to the stack of freed offsets, modelled as an
association list), and the live placement records (`textureInfos_`). -/
structure State where
  currentInstanceId : Int
  currentZ : Int
  currentX : Int
  currentY : Int
  maxTextureHeightInCurrentRow : Int
  discarded : List ((Int × Int) × List Offset)
  textureInfos : List TextureInfo
  deriving DecidableEq, Repr

/-- `offset()`: the cursor position as an `Offset`. -/
def State.offset (st : State) : Offset :=
  ⟨st.currentInstanceId, st.currentX, st.currentY, st.currentZ⟩

/-- `discarded_.find(Size{w,h})`: association-list lookup by exact size. -/
def lookupDiscarded (d : List ((Int × Int) × List Offset)) (k : Int × Int) :
    Option (List Offset) :=
  (d.find? (fun e => decide (e.1 = k))).map (·.2)

/-- Replace the stack stored under key `k` (the mutation through the
`std::map` iterator). -/
def updateDiscarded (d : List ((Int × Int) × List Offset)) (k : Int × Int)
    (v : List Offset) : List ((Int × Int) × List Offset) :=
  d.map (fun e => if e.1 = k then (e.1, v) else e)

/-- `discarded_.erase(i)`: remove the entry with key `k`. -/
def eraseDiscarded (d : List ((Int × Int) × List Offset)) (k : Int × Int) :
    List ((Int × Int) × List Offset) :=
  d.filter (fun e => decide (e.1 ≠ k))

/-- `discarded_[Size{w,h}].emplace_back(off)`: push `off` on the stack for
key `k`, creating the entry when absent. -/
def pushDiscarded (d : List ((Int × Int) × List Offset)) (k : Int × Int)
    (off : Offset) : List ((Int × Int) × List Offset) :=
  match lookupDiscarded d k with
  | some offs => updateDiscarded d k (offs ++ [off])
  | none => d ++ [(k, [off])]

/-- The record built by `appendTextureInfo` (lines 204-219). -/
def mkTextureInfo (cfg : Config) (w h tw th : Int) (off : Offset)
    (user : Int) : TextureInfo :=
  { atlas := off.i
    atlasName := cfg.name
    x := off.x
    y := off.y
    z := off.z
    width := w
    height := h
    targetWidth := tw
    targetHeight := th
    user := user }

/-- `appendTextureInfo`: build the record and append it to
`textureInfos_`, returning the stored record. -/
def appendTextureInfo (cfg : Config) (w h tw th : Int) (off : Offset)
    (user : Int) (st : State) : TextureInfo × State :=
  let info := mkTextureInfo cfg w h tw th off user
  (info, { st with textureInfos := st.textureInfos ++ [info] })

/-- The common tail of `getOffsetAndAdvance` (lines 104-107): place at the
cursor, advance `currentX_` by `width + HorizontalGap` and fold the height
into `maxTextureHeightInCurrentRow_`. -/
def placeAndAdvance (cfg : Config) (w h : Int) (st : State)
    (evs : List Event) : Option Offset × State × List Event :=
  (some st.offset,
   { st with
       currentX := st.currentX + w + cfg.horizontalGap
       maxTextureHeightInCurrentRow := max st.maxTextureHeightInCurrentRow h },
   evs)

/-- `TextureAtlasAllocator::getOffsetAndAdvance` (lines 70-108): the
packing walk.  Row wrap, then layer wrap, then instance wrap; exhaustion
pins the cursor at the full sentinel and fails.  An instance wrap emits
the `createAtlas` notification (`notifyCreateAtlas`, modelled from the
spec as `createAtlas(currentInstanceId)` since the helper's body lives in
the missing header). -/
def getOffsetAndAdvance (cfg : Config) (w h : Int) (st : State) :
    Option Offset × State × List Event :=
  if ¬(st.currentX + cfg.horizontalGap + w < cfg.width) then
    let st := { st with
                  currentX := 0
                  currentY := st.currentY + st.maxTextureHeightInCurrentRow
                                + cfg.verticalGap }
    if ¬(st.currentY + h < cfg.height) then
      let st := { st with
                    currentY := 0
                    maxTextureHeightInCurrentRow := 0
                    currentZ := st.currentZ + 1 }
      if ¬(st.currentZ < cfg.depth) then
        let st := { st with currentZ := 0 }
        if ¬(st.currentInstanceId + 1 < cfg.instanceBaseId + cfg.maxInstances) then
          (none,
           { st with
               currentX := cfg.width
               currentY := cfg.height
               currentZ := cfg.depth },
           [])
        else
          let st := { st with currentInstanceId := st.currentInstanceId + 1 }
          placeAndAdvance cfg w h st [Event.createAtlas st.currentInstanceId]
      else
        placeAndAdvance cfg w h st []
    else
      placeAndAdvance cfg w h st []
  else
    placeAndAdvance cfg w h st []

/-- The non-free-list tail of `insert` (lines 142-178): oversize
rejection, then the packing walk, then record construction and upload. -/
def insertFresh (cfg : Config) (w h tw th fmt user : Int) (st : State) :
    Option TextureInfo × State × List Event :=
  if h > cfg.height ∨ w > cfg.width then
    (none, st, [])
  else
    match getOffsetAndAdvance cfg w h st with
    | (none, st1, evs) => (none, st1, evs)
    | (some off, st1, evs) =>
        let r := appendTextureInfo cfg w h tw th off user st1
        (some r.1, r.2, evs ++ [Event.uploadTexture r.1 fmt])

/-- `TextureAtlasAllocator::insert` (lines 110-179): free-list first
(exact-size, last-freed-first), else the fresh-placement path. -/
def insert (cfg : Config) (w h tw th fmt user : Int) (st : State) :
    Option TextureInfo × State × List Event :=
  match lookupDiscarded st.discarded (w, h) with
  | some offs =>
      match offs.getLast? with
      | some off =>
          let offs' := offs.dropLast
          let d' := if offs' = [] then eraseDiscarded st.discarded (w, h)
                    else updateDiscarded st.discarded (w, h) offs'
          let r := appendTextureInfo cfg w h tw th off user
                     { st with discarded := d' }
          (some r.1, r.2, [Event.uploadTexture r.1 fmt])
      | none => insertFresh cfg w h tw th fmt user st
  | none => insertFresh cfg w h tw th fmt user st

/-- Remove the first occurrence of `q` from the list (the single record
found by the identity search `std::find_if` in `release`). -/
def removeFirst : List TextureInfo → TextureInfo → List TextureInfo
  | [], _ => []
  | p :: rest, q => if p = q then rest else p :: removeFirst rest q

/-- `TextureAtlasAllocator::release` (lines 181-195): find the live
record, push its offset on the size's free-list stack and drop it from
the live set; a record not in the live set is a silent no-op. -/
def release (info : TextureInfo) (st : State) : State :=
  if st.textureInfos.any (fun p => decide (p = info)) then
    { st with
        discarded := pushDiscarded st.discarded (info.width, info.height)
                       ⟨info.atlas, info.x, info.y, info.z⟩
        textureInfos := removeFirst st.textureInfos info }
  else st

/-- The constructor's initial state (lines 33-52): cursor at the origin
of the base instance, no free-list entries, no live records. -/
def initState (cfg : Config) : State :=
  { currentInstanceId := cfg.instanceBaseId
    currentZ := 0
    currentX := 0
    currentY := 0
    maxTextureHeightInCurrentRow := 0
    discarded := []
    textureInfos := [] }

/-- The constructor's backend notification (`notifyCreateAtlas` for the
base instance). -/
def initEvents (cfg : Config) : List Event :=
  [Event.createAtlas cfg.instanceBaseId]

/-- `TextureAtlasAllocator::clear` (lines 60-68): reset the cursor and
empty the free-list; live records and backend instances are untouched. -/
def clear (cfg : Config) (st : State) : State :=
  { st with
      currentInstanceId := cfg.instanceBaseId
      currentZ := 0
      currentX := 0
      currentY := 0
      maxTextureHeightInCurrentRow := 0
      discarded := [] }

/-- The destructor (lines 54-58): one `destroyAtlas` per id from
`instanceBaseId_` to `currentInstanceId_`, inclusive. -/
def destroyEvents (cfg : Config) (st : State) : List Event :=
  (List.range (st.currentInstanceId - cfg.instanceBaseId + 1).toNat).map
    (fun n => Event.destroyAtlas (cfg.instanceBaseId + Int.ofNat n))

/-- One API call against the allocator, as recorded in a trace. -/
inductive Op where
  | insert (w h tw th fmt user : Int)
  | release (info : TextureInfo)
  | clear
  deriving DecidableEq, Repr

/-- Apply one call: the successor state and the backend events emitted. -/
def applyOp (cfg : Config) (st : State) : Op → State × List Event
  | .insert w h tw th fmt user =>
      let r := insert cfg w h tw th fmt user st
      (r.2.1, r.2.2)
  | .release info => (release info st, [])
  | .clear => (clear cfg st, [])

/-- Run a trace of calls, accumulating states and backend events. -/
def execOps (cfg : Config) : State → List Op → State × List Event
  | st, [] => (st, [])
  | st, op :: ops =>
      let r := applyOp cfg st op
      let r' := execOps cfg r.1 ops
      (r'.1, r.2 ++ r'.2)

/-- Run a trace from construction; events include the constructor's
`createAtlas`. -/
def runOps (cfg : Config) (ops : List Op) : State × List Event :=
  let r := execOps cfg (initState cfg) ops
  (r.1, initEvents cfg ++ r.2)

/-- The instance ids announced by `createAtlas` events, in emission order. -/
def createdIds (evs : List Event) : List Int :=
  evs.filterMap (fun e => match e with
    | Event.createAtlas id => some id
    | _ => none)

/-- An operation whose requested dimensions (when it is an `insert`) are
nonnegative — every real image has nonnegative pixel extents. -/
def Op.nonnegDims : Op → Prop
  | .insert w h _ _ _ _ => 0 ≤ w ∧ 0 ≤ h
  | _ => True

/-- An `insert` operation with nonnegative dimensions. -/
def Op.isInsertNonneg : Op → Prop
  | .insert w h _ _ _ _ => 0 ≤ w ∧ 0 ≤ h
  | _ => False

/-- An `insert` or `release` operation (no `clear`), inserts with
nonnegative dimensions. -/
def Op.isInsertOrRelease : Op → Prop
  | .insert w h _ _ _ _ => 0 ≤ w ∧ 0 ≤ h
  | .release _ => True
  | .clear => False

/-- Not a `clear` operation. -/
def Op.notClear : Op → Prop
  | .clear => False
  | _ => True

/-- The cursor fields of a state, bundled (instance, z, x, y, row max). -/
def State.cursor (st : State) : Int × Int × Int × Int × Int :=
  (st.currentInstanceId, st.currentZ, st.currentX, st.currentY,
   st.maxTextureHeightInCurrentRow)

/-- The sentinel "full" cursor written on exhaustion (lines 91-93),
together with the row max that the failing walk has reset to `0`. -/
def Sentinel (cfg : Config) (st : State) : Prop :=
  st.currentX = cfg.width ∧ st.currentY = cfg.height ∧
    st.currentZ = cfg.depth ∧ st.maxTextureHeightInCurrentRow = 0

instance (cfg : Config) (st : State) : Decidable (Sentinel cfg st) := by
  unfold Sentinel; infer_instance

/-- Two placement records overlap when they name the same instance and
layer and their half-open (x, y) rectangles intersect. -/
def Overlaps (p q : TextureInfo) : Prop :=
  p.atlas = q.atlas ∧ p.z = q.z ∧
    p.x < q.x + q.width ∧ q.x < p.x + p.width ∧
    p.y < q.y + q.height ∧ q.y < p.y + p.height

instance : DecidableRel Overlaps := fun p q => by
  unfold Overlaps; infer_instance

/-- The free-list has no usable entry for key `k` (absent, or present but
empty — the latter makes `insert` skip reuse just the same). -/
def lookupMiss (st : State) (k : Int × Int) : Prop :=
  lookupDiscarded st.discarded k = none ∨ lookupDiscarded st.discarded k = some []

instance (st : State) (k : Int × Int) : Decidable (lookupMiss st k) := by
  unfold lookupMiss
  infer_instance

/-! ## Concrete scenarios -/

/-- A single 10x10 page, one layer, one instance, no gaps. -/
def squareCfg : Config :=
  { instanceBaseId := 0, maxInstances := 1, depth := 1, width := 10,
    height := 10, horizontalGap := 0, verticalGap := 0, format := 0,
    name := "atlas" }

/-- Fill the first row with heights 4 and 5, wrap to a second row at
`y = 5`, then drop a height-10 texture into that row: it is placed at
`(4, 5)` and reaches down to `y = 15`, beyond the 10-pixel page. -/
def overflowOps : List Op :=
  [Op.insert 1 4 0 0 0 0, Op.insert 5 5 0 0 0 0,
   Op.insert 4 1 0 0 0 0, Op.insert 1 10 0 0 0 0]

/-- A single 2x2 page, one layer, one instance, no gaps: exhausted by the
very first placement walk that wraps. -/
def tinyCfg : Config :=
  { instanceBaseId := 0, maxInstances := 1, depth := 1, width := 2,
    height := 2, horizontalGap := 0, verticalGap := 0, format := 0,
    name := "tiny" }

/-- A 2x2 page with room to grow to a second instance. -/
def growCfg : Config :=
  { instanceBaseId := 0, maxInstances := 2, depth := 1, width := 2,
    height := 2, horizontalGap := 0, verticalGap := 0, format := 0,
    name := "grow" }

/-- Two unit inserts (the second forces creation of instance 1), then a
`clear()` — which resets `currentInstanceId_` back to the base id. -/
def growThenClearOps : List Op :=
  [Op.insert 1 1 0 0 0 0, Op.insert 1 1 0 0 0 0, Op.clear]

/-- A 2x3 page: a width-2 request row-wraps and is then placed at `x = 0`
without re-checking the row-fit condition `x + gap + w < width`. -/
def narrowCfg : Config :=
  { instanceBaseId := 0, maxInstances := 1, depth := 1, width := 2,
    height := 3, horizontalGap := 0, verticalGap := 0, format := 0,
    name := "narrow" }

/-- States reachable from construction by any sequence of API calls. -/
def Reachable (cfg : Config) (st : State) : Prop :=
  ∃ ops : List Op, (execOps cfg (initState cfg) ops).1 = st

/-- A live record fits the page and names an in-range instance. -/
def GoodInfo (cfg : Config) (p : TextureInfo) : Prop :=
  p.width ≤ cfg.width ∧ p.height ≤ cfg.height ∧
    cfg.instanceBaseId ≤ p.atlas ∧
    p.atlas < cfg.instanceBaseId + cfg.maxInstances

/-- A free-list entry has an in-bounds size key and in-range offsets. -/
def GoodEntry (cfg : Config) (e : (Int × Int) × List Offset) : Prop :=
  e.1.1 ≤ cfg.width ∧ e.1.2 ≤ cfg.height ∧
    ∀ off ∈ e.2, cfg.instanceBaseId ≤ off.i ∧
      off.i < cfg.instanceBaseId + cfg.maxInstances

/-- The standing invariant of every reachable state: the instance id is
in range, and every live record and free-list entry is well-formed. -/
def ReachInv (cfg : Config) (st : State) : Prop :=
  cfg.instanceBaseId ≤ st.currentInstanceId ∧
  st.currentInstanceId < cfg.instanceBaseId + cfg.maxInstances ∧
  (∀ p ∈ st.textureInfos, GoodInfo cfg p) ∧
  (∀ e ∈ st.discarded, GoodEntry cfg e)

instance : DecidablePred Op.notClear := fun op => by
  cases op <;> (unfold Op.notClear; infer_instance)

instance : DecidablePred Op.nonnegDims := fun op => by
  cases op <;> (unfold Op.nonnegDims; infer_instance)

instance : DecidablePred Op.isInsertNonneg := fun op => by
  cases op <;> (unfold Op.isInsertNonneg; infer_instance)

instance : DecidablePred Op.isInsertOrRelease := fun op => by
  cases op <;> (unfold Op.isInsertOrRelease; infer_instance)

/-- The consecutive instance ids from `a` to `b`, inclusive (empty when
`b < a`) — the id set the destructor walks. -/
def idRange (a b : Int) : List Int :=
  (List.range (b - a + 1).toNat).map (fun n => a + Int.ofNat n)

/-- How a live placement relates to the packing cursor: it lives in a
finished instance, a finished layer, a finished row of the current layer,
or in the current row (left of the cursor and within the tracked
height). -/
def posRel (_cfg : Config) (st : State) (p : TextureInfo) : Prop :=
  p.atlas < st.currentInstanceId ∨
    (p.atlas = st.currentInstanceId ∧
      (p.z < st.currentZ ∨
        (p.z = st.currentZ ∧
          (p.y + p.height ≤ st.currentY ∨
            (p.y = st.currentY ∧ p.x + p.width ≤ st.currentX ∧
              p.height ≤ st.maxTextureHeightInCurrentRow)))))

/-- Nonnegative gaps and a positive layer count: the geometry conditions
under which the shelf invariant is stated. -/
def GapsOK (cfg : Config) : Prop :=
  0 ≤ cfg.horizontalGap ∧ 0 ≤ cfg.verticalGap ∧ 0 < cfg.depth

/-- The shelf invariant maintained by insert-only traffic: empty
free-list, nonnegative tracked row height, a cursor layer inside the page
(or the exhaustion sentinel), every live record below the layer bound and
positioned behind the cursor, and pairwise disjointness. -/
def PackInv (cfg : Config) (st : State) : Prop :=
  st.discarded = [] ∧
  0 ≤ st.maxTextureHeightInCurrentRow ∧
  (st.currentZ < cfg.depth ∨ Sentinel cfg st) ∧
  (∀ p ∈ st.textureInfos, p.z < cfg.depth ∧ posRel cfg st p) ∧
  List.Pairwise (fun p q => ¬ Overlaps p q) st.textureInfos

/-- The heights of the records of `l` lying in instance `I`, layer `Z`. -/
def heightsIn (I Z : Int) (l : List TextureInfo) : List Int :=
  (l.filter (fun p => decide (p.atlas = I ∧ p.z = Z))).map (·.height)

/-- The maximum height over all placements made in the cursor's current
instance and layer (0 when none). -/
def layerMaxHeight (st : State) : Int :=
  (heightsIn st.currentInstanceId st.currentZ st.textureInfos).foldr max 0

/-- Two inserts filling part of the first row of the 10x10 page: layer
max height 5, cursor at `x = 6`. -/
def rowDemoOps : List Op :=
  [Op.insert 1 4 0 0 0 0, Op.insert 5 5 0 0 0 0]

/-! ## Branch characterizations of the packing walk -/

theorem getOffsetAndAdvance_fit {cfg : Config} {w h : Int} {st : State}
    (hx : st.currentX + cfg.horizontalGap + w < cfg.width) :
    getOffsetAndAdvance cfg w h st = placeAndAdvance cfg w h st [] := by
  unfold getOffsetAndAdvance
  rw [if_neg (not_not_intro hx)]

theorem getOffsetAndAdvance_rowWrap {cfg : Config} {w h : Int} {st : State}
    (hx : ¬(st.currentX + cfg.horizontalGap + w < cfg.width))
    (hy : st.currentY + st.maxTextureHeightInCurrentRow + cfg.verticalGap + h
            < cfg.height) :
    getOffsetAndAdvance cfg w h st =
      placeAndAdvance cfg w h
        { st with
            currentX := 0
            currentY := st.currentY + st.maxTextureHeightInCurrentRow
                          + cfg.verticalGap } [] := by
  unfold getOffsetAndAdvance
  rw [if_pos hx]
  rw [if_neg (not_not_intro hy)]

theorem getOffsetAndAdvance_layerWrap {cfg : Config} {w h : Int} {st : State}
    (hx : ¬(st.currentX + cfg.horizontalGap + w < cfg.width))
    (hy : ¬(st.currentY + st.maxTextureHeightInCurrentRow + cfg.verticalGap + h
              < cfg.height))
    (hz : st.currentZ + 1 < cfg.depth) :
    getOffsetAndAdvance cfg w h st =
      placeAndAdvance cfg w h
        { st with
            currentX := 0
            currentY := 0
            maxTextureHeightInCurrentRow := 0
            currentZ := st.currentZ + 1 } [] := by
  unfold getOffsetAndAdvance
  rw [if_pos hx, if_pos hy]
  rw [if_neg (not_not_intro hz)]

theorem getOffsetAndAdvance_instanceWrap {cfg : Config} {w h : Int} {st : State}
    (hx : ¬(st.currentX + cfg.horizontalGap + w < cfg.width))
    (hy : ¬(st.currentY + st.maxTextureHeightInCurrentRow + cfg.verticalGap + h
              < cfg.height))
    (hz : ¬(st.currentZ + 1 < cfg.depth))
    (hi : st.currentInstanceId + 1 < cfg.instanceBaseId + cfg.maxInstances) :
    getOffsetAndAdvance cfg w h st =
      placeAndAdvance cfg w h
        { st with
            currentX := 0
            currentY := 0
            maxTextureHeightInCurrentRow := 0
            currentZ := 0
            currentInstanceId := st.currentInstanceId + 1 }
        [Event.createAtlas (st.currentInstanceId + 1)] := by
  unfold getOffsetAndAdvance
  rw [if_pos hx, if_pos hy, if_pos hz]
  rw [if_neg (not_not_intro hi)]

theorem getOffsetAndAdvance_fail {cfg : Config} {w h : Int} {st : State}
    (hx : ¬(st.currentX + cfg.horizontalGap + w < cfg.width))
    (hy : ¬(st.currentY + st.maxTextureHeightInCurrentRow + cfg.verticalGap + h
              < cfg.height))
    (hz : ¬(st.currentZ + 1 < cfg.depth))
    (hi : ¬(st.currentInstanceId + 1 < cfg.instanceBaseId + cfg.maxInstances)) :
    getOffsetAndAdvance cfg w h st =
      (none,
       { st with
           currentX := cfg.width
           currentY := cfg.height
           currentZ := cfg.depth
           maxTextureHeightInCurrentRow := 0 },
       []) := by
  unfold getOffsetAndAdvance
  rw [if_pos hx, if_pos hy, if_pos hz, if_pos hi]

/-! ## Branch characterizations of `insert` -/

theorem insert_of_miss {cfg : Config} {w h tw th fmt user : Int} {st : State}
    (hm : lookupMiss st (w, h)) :
    insert cfg w h tw th fmt user st = insertFresh cfg w h tw th fmt user st := by
  rcases hm with hm | hm
  · unfold insert
    rw [hm]
  · unfold insert
    rw [hm]
    rfl

theorem insert_oversize {cfg : Config} {w h tw th fmt user : Int} {st : State}
    (hm : lookupMiss st (w, h)) (hov : h > cfg.height ∨ w > cfg.width) :
    insert cfg w h tw th fmt user st = (none, st, []) := by
  rw [insert_of_miss hm]
  unfold insertFresh
  rw [if_pos hov]

theorem insert_hit {cfg : Config} {w h tw th fmt user : Int} {st : State}
    {offs : List Offset} {off : Offset}
    (hl : lookupDiscarded st.discarded (w, h) = some offs)
    (hlast : offs.getLast? = some off) :
    insert cfg w h tw th fmt user st =
      (some (mkTextureInfo cfg w h tw th off user),
       { st with
           discarded :=
             if offs.dropLast = [] then eraseDiscarded st.discarded (w, h)
             else updateDiscarded st.discarded (w, h) offs.dropLast
           textureInfos :=
             st.textureInfos ++ [mkTextureInfo cfg w h tw th off user] },
       [Event.uploadTexture (mkTextureInfo cfg w h tw th off user) fmt]) := by
  unfold insert
  rw [hl]
  simp only [hlast]
  rfl

/-- Exhaustive case analysis of the packing walk: exactly one of the five
branches applies, with its guard conditions and its result. -/
theorem getOffsetAndAdvance_cases (cfg : Config) (w h : Int) (st : State) :
    (st.currentX + cfg.horizontalGap + w < cfg.width ∧
       getOffsetAndAdvance cfg w h st = placeAndAdvance cfg w h st [])
  ∨ (¬(st.currentX + cfg.horizontalGap + w < cfg.width) ∧
       st.currentY + st.maxTextureHeightInCurrentRow + cfg.verticalGap + h
         < cfg.height ∧
       getOffsetAndAdvance cfg w h st =
         placeAndAdvance cfg w h
           { st with
               currentX := 0
               currentY := st.currentY + st.maxTextureHeightInCurrentRow
                             + cfg.verticalGap } [])
  ∨ (¬(st.currentX + cfg.horizontalGap + w < cfg.width) ∧
       ¬(st.currentY + st.maxTextureHeightInCurrentRow + cfg.verticalGap + h
           < cfg.height) ∧
       st.currentZ + 1 < cfg.depth ∧
       getOffsetAndAdvance cfg w h st =
         placeAndAdvance cfg w h
           { st with
               currentX := 0
               currentY := 0
               maxTextureHeightInCurrentRow := 0
               currentZ := st.currentZ + 1 } [])
  ∨ (¬(st.currentX + cfg.horizontalGap + w < cfg.width) ∧
       ¬(st.currentY + st.maxTextureHeightInCurrentRow + cfg.verticalGap + h
           < cfg.height) ∧
       ¬(st.currentZ + 1 < cfg.depth) ∧
       st.currentInstanceId + 1 < cfg.instanceBaseId + cfg.maxInstances ∧
       getOffsetAndAdvance cfg w h st =
         placeAndAdvance cfg w h
           { st with
               currentX := 0
               currentY := 0
               maxTextureHeightInCurrentRow := 0
               currentZ := 0
               currentInstanceId := st.currentInstanceId + 1 }
           [Event.createAtlas (st.currentInstanceId + 1)])
  ∨ (¬(st.currentX + cfg.horizontalGap + w < cfg.width) ∧
       ¬(st.currentY + st.maxTextureHeightInCurrentRow + cfg.verticalGap + h
           < cfg.height) ∧
       ¬(st.currentZ + 1 < cfg.depth) ∧
       ¬(st.currentInstanceId + 1 < cfg.instanceBaseId + cfg.maxInstances) ∧
       getOffsetAndAdvance cfg w h st =
         (none,
          { st with
              currentX := cfg.width
              currentY := cfg.height
              currentZ := cfg.depth
              maxTextureHeightInCurrentRow := 0 },
          [])) := by
  by_cases hx : st.currentX + cfg.horizontalGap + w < cfg.width
  · exact Or.inl ⟨hx, getOffsetAndAdvance_fit hx⟩
  by_cases hy : st.currentY + st.maxTextureHeightInCurrentRow + cfg.verticalGap + h
      < cfg.height
  · exact Or.inr (Or.inl ⟨hx, hy, getOffsetAndAdvance_rowWrap hx hy⟩)
  by_cases hz : st.currentZ + 1 < cfg.depth
  · exact Or.inr (Or.inr (Or.inl ⟨hx, hy, hz, getOffsetAndAdvance_layerWrap hx hy hz⟩))
  by_cases hi : st.currentInstanceId + 1 < cfg.instanceBaseId + cfg.maxInstances
  · exact Or.inr (Or.inr (Or.inr (Or.inl
      ⟨hx, hy, hz, hi, getOffsetAndAdvance_instanceWrap hx hy hz hi⟩)))
  · exact Or.inr (Or.inr (Or.inr (Or.inr
      ⟨hx, hy, hz, hi, getOffsetAndAdvance_fail hx hy hz hi⟩)))

/-- The walk never touches the free-list or the live records, and never
lowers the instance id. -/
theorem getOffsetAndAdvance_frame (cfg : Config) (w h : Int) (st : State) :
    (getOffsetAndAdvance cfg w h st).2.1.discarded = st.discarded ∧
    (getOffsetAndAdvance cfg w h st).2.1.textureInfos = st.textureInfos ∧
    (st.currentInstanceId ≤
      (getOffsetAndAdvance cfg w h st).2.1.currentInstanceId) := by
  rcases getOffsetAndAdvance_cases cfg w h st with
    ⟨_, he⟩ | ⟨_, _, he⟩ | ⟨_, _, _, he⟩ | ⟨_, _, _, _, he⟩ | ⟨_, _, _, _, he⟩ <;>
    rw [he] <;> simp [placeAndAdvance]

theorem insertFresh_of_oversize {cfg : Config} {w h tw th fmt user : Int}
    {st : State} (hov : h > cfg.height ∨ w > cfg.width) :
    insertFresh cfg w h tw th fmt user st = (none, st, []) := by
  unfold insertFresh
  rw [if_pos hov]

theorem insertFresh_of_advance_fail {cfg : Config} {w h tw th fmt user : Int}
    {st st1 : State} {evs : List Event}
    (hov : ¬(h > cfg.height ∨ w > cfg.width))
    (ha : getOffsetAndAdvance cfg w h st = (none, st1, evs)) :
    insertFresh cfg w h tw th fmt user st = (none, st1, evs) := by
  unfold insertFresh
  rw [if_neg hov, ha]

theorem insertFresh_of_advance_ok {cfg : Config} {w h tw th fmt user : Int}
    {st st1 : State} {off : Offset} {evs : List Event}
    (hov : ¬(h > cfg.height ∨ w > cfg.width))
    (ha : getOffsetAndAdvance cfg w h st = (some off, st1, evs)) :
    insertFresh cfg w h tw th fmt user st =
      (some (mkTextureInfo cfg w h tw th off user),
       { st1 with
           textureInfos :=
             st1.textureInfos ++ [mkTextureInfo cfg w h tw th off user] },
       evs ++ [Event.uploadTexture (mkTextureInfo cfg w h tw th off user) fmt]) := by
  unfold insertFresh
  rw [if_neg hov, ha]
  rfl

/-- C2: a successful placement can exceed the page's bottom edge.  The
row-fit test only checks the x extent; a texture added to an existing row
is never checked against the page height, so a height-10 texture placed
in a row that starts at `y = 5` of a 10-pixel-tall page runs to `y = 15`. -/
theorem insert_overflows_page_bottom :
    ∃ p ∈ (runOps squareCfg overflowOps).1.textureInfos,
      squareCfg.height < p.y + p.height := by decide

/-- C8 (amended): an offset returned by the packing walk without a row
wrap starts at the old cursor and satisfies the row-fit condition
`currentX + horizontalGap + width < pageWidth`; an offset returned after
any wrap is placed at `x = 0` without re-evaluating that condition. -/
theorem advance_offset_fit_or_reset (cfg : Config) (w h : Int) (st : State)
    (off : Offset) (hres : (getOffsetAndAdvance cfg w h st).1 = some off) :
    (off.x = st.currentX ∧
      st.currentX + cfg.horizontalGap + w < cfg.width) ∨ off.x = 0 := by
  rcases getOffsetAndAdvance_cases cfg w h st with
    ⟨hx, he⟩ | ⟨_, _, he⟩ | ⟨_, _, _, he⟩ | ⟨_, _, _, _, he⟩ | ⟨_, _, _, _, he⟩ <;>
    rw [he] at hres
  · left
    refine ⟨?_, hx⟩
    simp only [placeAndAdvance, Option.some.injEq] at hres
    rw [← hres]
    rfl
  all_goals
    right
  · simp only [placeAndAdvance, Option.some.injEq] at hres
    rw [← hres]
    rfl
  · simp only [placeAndAdvance, Option.some.injEq] at hres
    rw [← hres]
    rfl
  · simp only [placeAndAdvance, Option.some.injEq] at hres
    rw [← hres]
    rfl
  · simp at hres

/-- Witness for `advance_offset_fit_or_reset` at a concrete input. -/
theorem advance_offset_fit_or_reset_witness :
    ((⟨0, 0, 0, 0⟩ : Offset).x = (initState squareCfg).currentX ∧
      (initState squareCfg).currentX + squareCfg.horizontalGap + 1
        < squareCfg.width) ∨ (⟨0, 0, 0, 0⟩ : Offset).x = 0 :=
  advance_offset_fit_or_reset squareCfg 1 4 (initState squareCfg)
    ⟨0, 0, 0, 0⟩ (by decide)

/-- C8 is false as stated: on a width-2 page a width-2 request wraps the
row and is then placed at `x = 0` even though `0 + gap + 2 < 2` fails —
the reset state is not re-checked against the row-fit condition. -/
theorem advance_places_without_refit :
    (getOffsetAndAdvance narrowCfg 2 1 (initState narrowCfg)).1 =
      some ⟨0, 0, 0, 0⟩ ∧
    ¬((0 : Int) + narrowCfg.horizontalGap + 2 < narrowCfg.width) := by
  decide

/-- The effect dichotomy for the fresh-placement path of `insert`. -/
theorem insertFresh_dichotomy (cfg : Config) (w h tw th fmt user : Int)
    (st : State) :
    (∃ i st' evs, insertFresh cfg w h tw th fmt user st = (some i, st', evs) ∧
       (evs = [Event.uploadTexture i fmt] ∨
        ∃ id, evs = [Event.createAtlas id, Event.uploadTexture i fmt])) ∨
    (∃ st', insertFresh cfg w h tw th fmt user st = (none, st', []) ∧
       st'.discarded = st.discarded ∧ st'.textureInfos = st.textureInfos ∧
       st'.currentInstanceId = st.currentInstanceId ∧
       (st' = st ∨ Sentinel cfg st')) := by
  by_cases hov : h > cfg.height ∨ w > cfg.width
  · rw [insertFresh_of_oversize hov]
    exact Or.inr ⟨st, rfl, rfl, rfl, rfl, Or.inl rfl⟩
  rcases getOffsetAndAdvance_cases cfg w h st with
    ⟨_, he⟩ | ⟨_, _, he⟩ | ⟨_, _, _, he⟩ | ⟨_, _, _, _, he⟩ | ⟨_, _, _, _, he⟩ <;>
    (unfold insertFresh; rw [if_neg hov, he])
  · exact Or.inl ⟨_, _, _, rfl, Or.inl rfl⟩
  · exact Or.inl ⟨_, _, _, rfl, Or.inl rfl⟩
  · exact Or.inl ⟨_, _, _, rfl, Or.inl rfl⟩
  · exact Or.inl ⟨_, _, _, rfl, Or.inr ⟨st.currentInstanceId + 1, rfl⟩⟩
  · exact Or.inr ⟨_, rfl, rfl, rfl, rfl, Or.inr ⟨rfl, rfl, rfl, rfl⟩⟩

/-- C9 (amended): every `insert` either returns a record and uploads it
(after at most one `createAtlas`), or fails; a failing `insert` leaves the
free-list, the live records and the instance id unchanged, and either
leaves the whole state untouched (free-list miss with an oversized
request) or pins the cursor at the sentinel full position (exhaustion). -/
theorem insert_effect_dichotomy (cfg : Config) (w h tw th fmt user : Int)
    (st : State) :
    (∃ i st' evs, insert cfg w h tw th fmt user st = (some i, st', evs) ∧
       (evs = [Event.uploadTexture i fmt] ∨
        ∃ id, evs = [Event.createAtlas id, Event.uploadTexture i fmt])) ∨
    (∃ st', insert cfg w h tw th fmt user st = (none, st', []) ∧
       st'.discarded = st.discarded ∧ st'.textureInfos = st.textureInfos ∧
       st'.currentInstanceId = st.currentInstanceId ∧
       (st' = st ∨ Sentinel cfg st')) := by
  cases hl : lookupDiscarded st.discarded (w, h) with
  | none =>
      rw [insert_of_miss (Or.inl hl)]
      exact insertFresh_dichotomy cfg w h tw th fmt user st
  | some offs =>
      cases offs with
      | nil =>
          rw [insert_of_miss (Or.inr hl)]
          exact insertFresh_dichotomy cfg w h tw th fmt user st
      | cons a l =>
          cases hlast : (a :: l).getLast? with
          | none => simp at hlast
          | some off =>
              rw [insert_hit hl hlast]
              exact Or.inl ⟨_, _, _, rfl, Or.inl rfl⟩

/-- C9 is false as stated: an `insert` that fails through atlas
exhaustion does move the packing cursor — it pins it at the sentinel full
position, which differs from the pre-call cursor. -/
theorem failing_insert_moves_cursor :
    (insert tinyCfg 2 2 0 0 0 0 (initState tinyCfg)).1 = none ∧
    (insert tinyCfg 2 2 0 0 0 0 (initState tinyCfg)).2.1.currentX ≠
      (initState tinyCfg).currentX := by
  decide

/-- C3 is false as stated: creating two instances, then calling `clear()`
(which resets `currentInstanceId_` to the base id), then destroying the
allocator issues only one `destroyAtlas` — instance 1 is never destroyed. -/
theorem clear_breaks_teardown_coverage :
    createdIds (runOps growCfg growThenClearOps).2 = [0, 1] ∧
    destroyEvents growCfg (runOps growCfg growThenClearOps).1 =
      [Event.destroyAtlas 0] := by
  decide

/-! ## Free-list lookup lemmas -/

theorem lookupDiscarded_append_of_none
    {d : List ((Int × Int) × List Offset)} {k : Int × Int}
    (v : List Offset) (hl : lookupDiscarded d k = none) :
    lookupDiscarded (d ++ [(k, v)]) k = some v := by
  induction d with
  | nil => simp [lookupDiscarded]
  | cons e d ih =>
      by_cases he : e.1 = k
      · simp [lookupDiscarded, List.find?_cons, he] at hl
      · simp only [lookupDiscarded, List.cons_append, List.find?_cons,
          he, decide_False] at hl ⊢
        exact ih hl

theorem lookupDiscarded_update_of_some
    {d : List ((Int × Int) × List Offset)} {k : Int × Int}
    {offs : List Offset} (v : List Offset)
    (hl : lookupDiscarded d k = some offs) :
    lookupDiscarded (updateDiscarded d k v) k = some v := by
  induction d with
  | nil => simp [lookupDiscarded] at hl
  | cons e d ih =>
      by_cases he : e.1 = k
      · simp [lookupDiscarded, updateDiscarded, List.find?_cons, he]
      · simp only [lookupDiscarded, List.find?_cons, he, decide_False] at hl
        simp [lookupDiscarded, updateDiscarded, List.find?_cons, he]
        simpa [lookupDiscarded, updateDiscarded] using ih hl

/-- Pushing an offset for key `k` makes `k`'s stack end in that offset. -/
theorem lookupDiscarded_push_self
    (d : List ((Int × Int) × List Offset)) (k : Int × Int) (off : Offset) :
    lookupDiscarded (pushDiscarded d k off) k =
      some ((lookupDiscarded d k).getD [] ++ [off]) := by
  unfold pushDiscarded
  cases hl : lookupDiscarded d k with
  | none => simpa using lookupDiscarded_append_of_none [off] hl
  | some offs => simpa using lookupDiscarded_update_of_some (offs ++ [off]) hl

/-- A successful fresh placement returns a record of exactly the
requested size, appended to the live set. -/
theorem insertFresh_some_shape {cfg : Config} {w h tw th fmt user : Int}
    {st : State} {info : TextureInfo} {st' : State} {evs : List Event}
    (hins : insertFresh cfg w h tw th fmt user st = (some info, st', evs)) :
    info.width = w ∧ info.height = h ∧
      st'.textureInfos = st.textureInfos ++ [info] := by
  by_cases hov : h > cfg.height ∨ w > cfg.width
  · rw [insertFresh_of_oversize hov] at hins
    simp at hins
  rcases getOffsetAndAdvance_cases cfg w h st with
    ⟨_, he⟩ | ⟨_, _, he⟩ | ⟨_, _, _, he⟩ | ⟨_, _, _, _, he⟩ | ⟨_, _, _, _, he⟩ <;>
    (unfold insertFresh at hins; rw [if_neg hov, he] at hins;
     simp only [placeAndAdvance, Prod.mk.injEq, Option.some.injEq] at hins)
  · obtain ⟨hinfo, hst, -⟩ := hins
    subst hinfo
    subst hst
    exact ⟨rfl, rfl, rfl⟩
  · obtain ⟨hinfo, hst, -⟩ := hins
    subst hinfo
    subst hst
    exact ⟨rfl, rfl, rfl⟩
  · obtain ⟨hinfo, hst, -⟩ := hins
    subst hinfo
    subst hst
    exact ⟨rfl, rfl, rfl⟩
  · obtain ⟨hinfo, hst, -⟩ := hins
    subst hinfo
    subst hst
    exact ⟨rfl, rfl, rfl⟩
  · exact Option.noConfusion hins.1

/-- A successful `insert` returns a record of exactly the requested
size, appended to the live set. -/
theorem insert_some_shape {cfg : Config} {w h tw th fmt user : Int}
    {st : State} {info : TextureInfo} {st' : State} {evs : List Event}
    (hins : insert cfg w h tw th fmt user st = (some info, st', evs)) :
    info.width = w ∧ info.height = h ∧
      st'.textureInfos = st.textureInfos ++ [info] := by
  cases hl : lookupDiscarded st.discarded (w, h) with
  | none =>
      rw [insert_of_miss (Or.inl hl)] at hins
      exact insertFresh_some_shape hins
  | some offs =>
      cases offs with
      | nil =>
          rw [insert_of_miss (Or.inr hl)] at hins
          exact insertFresh_some_shape hins
      | cons a l =>
          cases hlast : (a :: l).getLast? with
          | none => simp at hlast
          | some off =>
              rw [insert_hit hl hlast] at hins
              simp only [Prod.mk.injEq, Option.some.injEq] at hins
              obtain ⟨hinfo, hst, -⟩ := hins
              subst hinfo
              subst hst
              exact ⟨rfl, rfl, rfl⟩

/-- C4: from any state, a successful `insert` of size `(w, h)` followed
by a `release` of the returned record and another `insert` of the same
size reuses the identical `(instance, x, y, layer)` offset — the offset
just pushed on the free-list stack, i.e. last-freed-first — uploads it,
and leaves the packing cursor exactly where the first insert left it. -/
theorem insert_release_insert_reuses_offset
    (cfg : Config) (w h tw th fmt user tw2 th2 fmt2 user2 : Int)
    (st : State) (info : TextureInfo) (st1 : State) (evs : List Event)
    (hins : insert cfg w h tw th fmt user st = (some info, st1, evs)) :
    ∃ info2 st3,
      insert cfg w h tw2 th2 fmt2 user2 (release info st1) =
        (some info2, st3, [Event.uploadTexture info2 fmt2]) ∧
      info2.atlas = info.atlas ∧ info2.x = info.x ∧ info2.y = info.y ∧
      info2.z = info.z ∧ st3.cursor = st1.cursor := by
  obtain ⟨hw, hh, hlive⟩ := insert_some_shape hins
  have hany : (st1.textureInfos.any (fun p => decide (p = info))) = true := by
    rw [hlive]
    simp
  have hrel : release info st1 =
      { st1 with
          discarded := pushDiscarded st1.discarded (info.width, info.height)
            ⟨info.atlas, info.x, info.y, info.z⟩
          textureInfos := removeFirst st1.textureInfos info } := by
    unfold release
    rw [if_pos hany]
  rw [hw, hh] at hrel
  have hlook : lookupDiscarded (release info st1).discarded (w, h) =
      some ((lookupDiscarded st1.discarded (w, h)).getD [] ++
        [⟨info.atlas, info.x, info.y, info.z⟩]) := by
    rw [hrel]
    exact lookupDiscarded_push_self st1.discarded (w, h)
      ⟨info.atlas, info.x, info.y, info.z⟩
  have hlast : ((lookupDiscarded st1.discarded (w, h)).getD [] ++
      [(⟨info.atlas, info.x, info.y, info.z⟩ : Offset)]).getLast? =
      some ⟨info.atlas, info.x, info.y, info.z⟩ := List.getLast?_concat _
  refine ⟨mkTextureInfo cfg w h tw2 th2 ⟨info.atlas, info.x, info.y, info.z⟩
    user2, _, insert_hit hlook hlast, rfl, rfl, rfl, rfl, ?_⟩
  rw [hrel]
  rfl

/-- Witness for `insert_release_insert_reuses_offset`: a 3x3 insert into
the empty 10x10 atlas, released and re-inserted. -/
theorem insert_release_insert_reuses_offset_witness :
    ∃ info2 st3,
      insert squareCfg 3 3 0 0 0 8
          (release (mkTextureInfo squareCfg 3 3 0 0 ⟨0, 0, 0, 0⟩ 7)
            { currentInstanceId := 0, currentZ := 0, currentX := 3,
              currentY := 0, maxTextureHeightInCurrentRow := 3,
              discarded := [],
              textureInfos :=
                [mkTextureInfo squareCfg 3 3 0 0 ⟨0, 0, 0, 0⟩ 7] }) =
        (some info2, st3, [Event.uploadTexture info2 0]) ∧
      info2.atlas = (mkTextureInfo squareCfg 3 3 0 0 ⟨0, 0, 0, 0⟩ 7).atlas ∧
      info2.x = (mkTextureInfo squareCfg 3 3 0 0 ⟨0, 0, 0, 0⟩ 7).x ∧
      info2.y = (mkTextureInfo squareCfg 3 3 0 0 ⟨0, 0, 0, 0⟩ 7).y ∧
      info2.z = (mkTextureInfo squareCfg 3 3 0 0 ⟨0, 0, 0, 0⟩ 7).z ∧
      st3.cursor =
        State.cursor
          { currentInstanceId := 0, currentZ := 0, currentX := 3,
            currentY := 0, maxTextureHeightInCurrentRow := 3,
            discarded := [],
            textureInfos :=
              [mkTextureInfo squareCfg 3 3 0 0 ⟨0, 0, 0, 0⟩ 7] } :=
  insert_release_insert_reuses_offset squareCfg 3 3 0 0 0 7 0 0 0 8
    (initState squareCfg) (mkTextureInfo squareCfg 3 3 0 0 ⟨0, 0, 0, 0⟩ 7)
    { currentInstanceId := 0, currentZ := 0, currentX := 3, currentY := 0,
      maxTextureHeightInCurrentRow := 3, discarded := [],
      textureInfos := [mkTextureInfo squareCfg 3 3 0 0 ⟨0, 0, 0, 0⟩ 7] }
    [Event.uploadTexture (mkTextureInfo squareCfg 3 3 0 0 ⟨0, 0, 0, 0⟩ 7) 0]
    (by decide)

/-! ## Reachability and the standing state invariant -/

/-- Invariant preservation along a trace, from a single-step lemma. -/
theorem execOps_preserve {cfg : Config} {P : State → Prop} {Q : Op → Prop}
    (hstep : ∀ st op, Q op → P st → P (applyOp cfg st op).1) :
    ∀ (ops : List Op) (st : State), (∀ op ∈ ops, Q op) → P st →
      P (execOps cfg st ops).1 := by
  intro ops
  induction ops with
  | nil => intro st _ hP; exact hP
  | cons op ops ih =>
      intro st hQ hP
      exact ih _ (fun o ho => hQ o (List.mem_cons_of_mem _ ho))
        (hstep st op (hQ op (List.mem_cons_self _ _)) hP)

theorem mem_of_removeFirst {l : List TextureInfo} {q p : TextureInfo}
    (hp : p ∈ removeFirst l q) : p ∈ l := by
  induction l with
  | nil => simp [removeFirst] at hp
  | cons a l ih =>
      by_cases ha : a = q
      · rw [removeFirst, if_pos ha] at hp
        exact List.mem_cons_of_mem _ hp
      · rw [removeFirst, if_neg ha] at hp
        rcases List.mem_cons.mp hp with h | h
        · exact h ▸ List.mem_cons_self _ _
        · exact List.mem_cons_of_mem _ (ih h)

theorem lookupDiscarded_mem {d : List ((Int × Int) × List Offset)}
    {k : Int × Int} {offs : List Offset}
    (hl : lookupDiscarded d k = some offs) : (k, offs) ∈ d := by
  unfold lookupDiscarded at hl
  cases hf : d.find? (fun e => decide (e.1 = k)) with
  | none => rw [hf] at hl; exact Option.noConfusion hl
  | some e =>
      rw [hf] at hl
      simp only [Option.map_some', Option.some.injEq] at hl
      have hkey : e.1 = k := by
        have := List.find?_some hf
        simpa using this
      have hmem := List.mem_of_find?_eq_some hf
      have : e = (k, offs) := by
        cases e
        simp only [Prod.mk.injEq]
        exact ⟨hkey, hl⟩
      exact this ▸ hmem

theorem mem_of_updateDiscarded {d : List ((Int × Int) × List Offset)}
    {k : Int × Int} {v : List Offset} {e : (Int × Int) × List Offset}
    (he : e ∈ updateDiscarded d k v) :
    ∃ e0 ∈ d, e = if e0.1 = k then (e0.1, v) else e0 := by
  obtain ⟨e0, he0, heq⟩ := List.mem_map.mp he
  exact ⟨e0, he0, heq.symm⟩

theorem mem_of_eraseDiscarded {d : List ((Int × Int) × List Offset)}
    {k : Int × Int} {e : (Int × Int) × List Offset}
    (he : e ∈ eraseDiscarded d k) : e ∈ d :=
  List.mem_of_mem_filter he

theorem mem_of_pushDiscarded {d : List ((Int × Int) × List Offset)}
    {k : Int × Int} {off : Offset} {e : (Int × Int) × List Offset}
    (he : e ∈ pushDiscarded d k off) :
    e ∈ d ∨
      (e.1 = k ∧ ∀ o ∈ e.2, o = off ∨ ∃ offs, lookupDiscarded d k = some offs ∧ o ∈ offs) := by
  unfold pushDiscarded at he
  cases hl : lookupDiscarded d k with
  | none =>
      rw [hl] at he
      rcases List.mem_append.mp he with h | h
      · exact Or.inl h
      · right
        simp only [List.mem_singleton] at h
        subst h
        refine ⟨rfl, ?_⟩
        intro o ho
        simp only [List.mem_singleton] at ho
        exact Or.inl ho
  | some offs =>
      rw [hl] at he
      obtain ⟨e0, he0, heq⟩ := mem_of_updateDiscarded he
      by_cases hk : e0.1 = k
      · rw [if_pos hk] at heq
        subst heq
        right
        refine ⟨hk, ?_⟩
        intro o ho
        rcases List.mem_append.mp ho with h | h
        · exact Or.inr ⟨offs, rfl, h⟩
        · simp only [List.mem_singleton] at h
          exact Or.inl h
      · rw [if_neg hk] at heq
        exact Or.inl (heq ▸ he0)

theorem mem_of_getLastQ {α : Type _} {l : List α} {a : α}
    (h : l.getLast? = some a) : a ∈ l := by
  induction l with
  | nil => exact Option.noConfusion h
  | cons x xs ih =>
      cases xs with
      | nil =>
          simp only [List.getLast?_singleton, Option.some.injEq] at h
          exact h ▸ List.mem_singleton_self x
      | cons y ys =>
          rw [List.getLast?_cons_cons] at h
          exact List.mem_cons_of_mem _ (ih h)

theorem mem_of_dropLast {α : Type _} {l : List α} {a : α}
    (h : a ∈ l.dropLast) : a ∈ l :=
  (List.dropLast_sublist l).subset h

theorem reachInv_insertFresh {cfg : Config} {w h tw th fmt user : Int}
    {st : State} (hinv : ReachInv cfg st) :
    ReachInv cfg (insertFresh cfg w h tw th fmt user st).2.1 := by
  obtain ⟨hIl, hIu, hlive, hdisc⟩ := hinv
  by_cases hov : h > cfg.height ∨ w > cfg.width
  · rw [insertFresh_of_oversize hov]
    exact ⟨hIl, hIu, hlive, hdisc⟩
  have hwle : w ≤ cfg.width := by
    rcases not_or.mp hov with ⟨-, h2⟩; omega
  have hhle : h ≤ cfg.height := by
    rcases not_or.mp hov with ⟨h1, -⟩; omega
  rcases getOffsetAndAdvance_cases cfg w h st with
    ⟨_, he⟩ | ⟨_, _, he⟩ | ⟨_, _, _, he⟩ | ⟨_, _, _, hi, he⟩ | ⟨_, _, _, _, he⟩ <;>
    (unfold insertFresh; rw [if_neg hov, he];
     simp only [placeAndAdvance, appendTextureInfo, State.offset]) <;>
    refine ⟨?_, ?_, ?_, ?_⟩
  · exact hIl
  · exact hIu
  · intro p hp
    rcases List.mem_append.mp hp with hp | hp
    · exact hlive p hp
    · rw [List.mem_singleton.mp hp]
      exact ⟨hwle, hhle, hIl, hIu⟩
  · exact hdisc
  · exact hIl
  · exact hIu
  · intro p hp
    rcases List.mem_append.mp hp with hp | hp
    · exact hlive p hp
    · rw [List.mem_singleton.mp hp]
      exact ⟨hwle, hhle, hIl, hIu⟩
  · exact hdisc
  · exact hIl
  · exact hIu
  · intro p hp
    rcases List.mem_append.mp hp with hp | hp
    · exact hlive p hp
    · rw [List.mem_singleton.mp hp]
      exact ⟨hwle, hhle, hIl, hIu⟩
  · exact hdisc
  · show cfg.instanceBaseId ≤ st.currentInstanceId + 1
    omega
  · show st.currentInstanceId + 1 < cfg.instanceBaseId + cfg.maxInstances
    exact hi
  · intro p hp
    have hIl1 : cfg.instanceBaseId ≤ st.currentInstanceId + 1 := by omega
    rcases List.mem_append.mp hp with hp | hp
    · exact hlive p hp
    · rw [List.mem_singleton.mp hp]
      exact ⟨hwle, hhle, hIl1, hi⟩
  · exact hdisc
  · exact hIl
  · exact hIu
  · exact hlive
  · exact hdisc

theorem reachInv_insert {cfg : Config} {w h tw th fmt user : Int}
    {st : State} (hinv : ReachInv cfg st) :
    ReachInv cfg (insert cfg w h tw th fmt user st).2.1 := by
  cases hl : lookupDiscarded st.discarded (w, h) with
  | none =>
      rw [insert_of_miss (Or.inl hl)]
      exact reachInv_insertFresh hinv
  | some offs =>
      cases offs with
      | nil =>
          rw [insert_of_miss (Or.inr hl)]
          exact reachInv_insertFresh hinv
      | cons a l =>
          cases hlast : (a :: l).getLast? with
          | none => simp at hlast
          | some off =>
              obtain ⟨hIl, hIu, hlive, hdisc⟩ := hinv
              have hentry := hdisc _ (lookupDiscarded_mem hl)
              obtain ⟨hkw, hkh, hoffs⟩ := hentry
              rw [insert_hit hl hlast]
              refine ⟨hIl, hIu, ?_, ?_⟩
              · intro p hp
                rcases List.mem_append.mp hp with hp | hp
                · exact hlive p hp
                · rw [List.mem_singleton.mp hp]
                  have hoffb := hoffs off (mem_of_getLastQ hlast)
                  exact ⟨hkw, hkh, hoffb.1, hoffb.2⟩
              · by_cases hdl : (a :: l).dropLast = []
                · rw [if_pos hdl]
                  intro e he
                  exact hdisc e (mem_of_eraseDiscarded he)
                · rw [if_neg hdl]
                  intro e he
                  obtain ⟨e0, he0, heq⟩ := mem_of_updateDiscarded he
                  by_cases hk : e0.1 = (w, h)
                  · rw [if_pos hk] at heq
                    subst heq
                    refine ⟨by rw [hk]; exact hkw, by rw [hk]; exact hkh, ?_⟩
                    intro o ho
                    exact hoffs o (mem_of_dropLast ho)
                  · rw [if_neg hk] at heq
                    exact hdisc e0 he0 |>.imp id (fun h2 => h2) |> (heq ▸ ·)

theorem reachInv_release {cfg : Config} {info : TextureInfo} {st : State}
    (hinv : ReachInv cfg st) : ReachInv cfg (release info st) := by
  obtain ⟨hIl, hIu, hlive, hdisc⟩ := hinv
  unfold release
  by_cases hany : (st.textureInfos.any (fun p => decide (p = info))) = true
  · rw [if_pos hany]
    obtain ⟨p0, hp0, hp0eq⟩ := List.any_eq_true.mp hany
    have hpinfo : info ∈ st.textureInfos := by
      have : p0 = info := of_decide_eq_true hp0eq
      exact this ▸ hp0
    obtain ⟨hgw, hgh, hgl, hgu⟩ := hlive info hpinfo
    refine ⟨hIl, hIu, ?_, ?_⟩
    · intro p hp
      exact hlive p (mem_of_removeFirst hp)
    · intro e he
      rcases mem_of_pushDiscarded he with he | ⟨hek, heo⟩
      · exact hdisc e he
      · refine ⟨by rw [hek]; exact hgw, by rw [hek]; exact hgh, ?_⟩
        intro o ho
        rcases heo o ho with rfl | ⟨offs, hoffs, homem⟩
        · exact ⟨hgl, hgu⟩
        · exact (hdisc _ (lookupDiscarded_mem hoffs)).2.2 o homem
  · rw [if_neg hany]
    exact ⟨hIl, hIu, hlive, hdisc⟩

theorem reachInv_clear {cfg : Config} {st : State}
    (hmax : 0 < cfg.maxInstances) (hinv : ReachInv cfg st) :
    ReachInv cfg (clear cfg st) := by
  obtain ⟨-, -, hlive, -⟩ := hinv
  unfold clear
  refine ⟨le_refl _, ?_, hlive, ?_⟩
  · show cfg.instanceBaseId < cfg.instanceBaseId + cfg.maxInstances
    omega
  · intro e he
    exact absurd he (List.not_mem_nil e)

theorem reachInv_init (cfg : Config) (hmax : 0 < cfg.maxInstances) :
    ReachInv cfg (initState cfg) := by
  unfold initState
  refine ⟨le_refl _, ?_, ?_, ?_⟩
  · show cfg.instanceBaseId < cfg.instanceBaseId + cfg.maxInstances
    omega
  · intro p hp
    exact absurd hp (List.not_mem_nil p)
  · intro e he
    exact absurd he (List.not_mem_nil e)

/-- Every reachable state satisfies the standing invariant. -/
theorem reachable_inv {cfg : Config} {st : State}
    (hmax : 0 < cfg.maxInstances) (hreach : Reachable cfg st) :
    ReachInv cfg st := by
  obtain ⟨ops, hops⟩ := hreach
  rw [← hops]
  refine execOps_preserve (Q := fun _ => True) ?_ ops (initState cfg)
    (fun _ _ => trivial) (reachInv_init cfg hmax)
  intro st op _ hP
  cases op with
  | insert w h tw th fmt user => exact reachInv_insert hP
  | release info => exact reachInv_release hP
  | clear => exact reachInv_clear hmax hP

/-- C5: in every reachable allocator state, an `insert` whose width
exceeds the page width or whose height exceeds the page height returns
the null result and leaves the packing cursor, the free-list and the
live-record set unchanged (the free-list of a reachable state can never
hold an oversized key, so the lookup always misses). -/
theorem oversized_insert_rejected (cfg : Config)
    (hmax : 0 < cfg.maxInstances) (st : State) (hreach : Reachable cfg st)
    (w h tw th fmt user : Int) (hov : cfg.width < w ∨ cfg.height < h) :
    insert cfg w h tw th fmt user st = (none, st, []) := by
  obtain ⟨-, -, -, hdisc⟩ := reachable_inv hmax hreach
  have hmiss : lookupMiss st (w, h) := by
    cases hl : lookupDiscarded st.discarded (w, h) with
    | none => exact Or.inl hl
    | some offs =>
        obtain ⟨hkw, hkh, -⟩ := hdisc _ (lookupDiscarded_mem hl)
        have hkw1 : w ≤ cfg.width := hkw
        have hkh1 : h ≤ cfg.height := hkh
        omega
  refine insert_oversize hmiss ?_
  rcases hov with hov | hov
  · exact Or.inr hov
  · exact Or.inl hov

/-- Witness for `oversized_insert_rejected`: a width-11 request against
the freshly constructed 10x10 atlas. -/
theorem oversized_insert_rejected_witness :
    insert squareCfg 11 1 0 0 0 0 (initState squareCfg) =
      (none, initState squareCfg, []) :=
  oversized_insert_rejected squareCfg (by decide) (initState squareCfg)
    ⟨[], rfl⟩ 11 1 0 0 0 0 (by decide)

/-- C7: in every reachable state the current instance id lies in
`[baseInstanceId, baseInstanceId + maxInstances)`, and so does the
instance id of every live placement. -/
theorem instance_id_in_range (cfg : Config) (hmax : 0 < cfg.maxInstances)
    (st : State) (hreach : Reachable cfg st) :
    cfg.instanceBaseId ≤ st.currentInstanceId ∧
    st.currentInstanceId < cfg.instanceBaseId + cfg.maxInstances ∧
    ∀ p ∈ st.textureInfos, cfg.instanceBaseId ≤ p.atlas ∧
      p.atlas < cfg.instanceBaseId + cfg.maxInstances := by
  obtain ⟨h1, h2, h3, -⟩ := reachable_inv hmax hreach
  exact ⟨h1, h2, fun p hp => ⟨(h3 p hp).2.2.1, (h3 p hp).2.2.2⟩⟩

/-- Witness for `instance_id_in_range`: the state after two unit inserts
into the 2x2 two-instance atlas (the second insert wrapped to a new
instance). -/
theorem instance_id_in_range_witness :
    growCfg.instanceBaseId ≤
      (execOps growCfg (initState growCfg)
        [Op.insert 1 1 0 0 0 0, Op.insert 1 1 0 0 0 0]).1.currentInstanceId ∧
    (execOps growCfg (initState growCfg)
        [Op.insert 1 1 0 0 0 0, Op.insert 1 1 0 0 0 0]).1.currentInstanceId <
      growCfg.instanceBaseId + growCfg.maxInstances ∧
    ∀ p ∈ (execOps growCfg (initState growCfg)
        [Op.insert 1 1 0 0 0 0, Op.insert 1 1 0 0 0 0]).1.textureInfos,
      growCfg.instanceBaseId ≤ p.atlas ∧
        p.atlas < growCfg.instanceBaseId + growCfg.maxInstances :=
  instance_id_in_range growCfg (by decide) _
    ⟨[Op.insert 1 1 0 0 0 0, Op.insert 1 1 0 0 0 0], rfl⟩

/-! ## Instance creation bookkeeping (teardown coverage) -/

theorem createdIds_append (evs1 evs2 : List Event) :
    createdIds (evs1 ++ evs2) = createdIds evs1 ++ createdIds evs2 :=
  List.filterMap_append evs1 evs2 _

theorem idRange_empty {a b : Int} (h : b < a) : idRange a b = [] := by
  unfold idRange
  have : (b - a + 1).toNat = 0 := by omega
  rw [this]
  rfl

theorem idRange_single (a : Int) : idRange a a = [a] := by
  unfold idRange
  have h1 : (a - a + 1).toNat = 1 := by omega
  have h2 : List.range 1 = [0] := rfl
  rw [h1, h2]
  simp

theorem idRange_append {a b c : Int} (h1 : a ≤ b + 1) (h2 : b ≤ c) :
    idRange a b ++ idRange (b + 1) c = idRange a c := by
  unfold idRange
  have hn : (c - a + 1).toNat = (b - a + 1).toNat + (c - (b + 1) + 1).toNat := by
    omega
  rw [hn, List.range_add, List.map_append, List.map_map]
  congr 1
  apply List.map_congr_left
  intro k _
  show b + 1 + (k : Int) = a + (((b - a + 1).toNat + k : Nat) : Int)
  omega

theorem idRange_cons {a b : Int} (h : a ≤ b) :
    a :: idRange (a + 1) b = idRange a b := by
  have := idRange_append (a := a) (b := a) (c := b) (by omega) h
  rw [idRange_single] at this
  exact this

/-- The fresh-placement path emits exactly the `createAtlas` events for
the ids it advances through. -/
theorem createdIds_insertFresh (cfg : Config) (w h tw th fmt user : Int)
    (st : State) :
    createdIds (insertFresh cfg w h tw th fmt user st).2.2 =
      idRange (st.currentInstanceId + 1)
        (insertFresh cfg w h tw th fmt user st).2.1.currentInstanceId := by
  by_cases hov : h > cfg.height ∨ w > cfg.width
  · have hL : createdIds (insertFresh cfg w h tw th fmt user st).2.2 = [] := by
      rw [insertFresh_of_oversize hov]
      try rfl
    have hR : (insertFresh cfg w h tw th fmt user st).2.1.currentInstanceId =
        st.currentInstanceId := by
      rw [insertFresh_of_oversize hov]
      try rfl
    rw [hL, hR]
    exact (idRange_empty (by omega)).symm
  rcases getOffsetAndAdvance_cases cfg w h st with
    ⟨_, he⟩ | ⟨_, _, he⟩ | ⟨_, _, _, he⟩ | ⟨_, _, _, _, he⟩ | ⟨_, _, _, _, he⟩
  · have hL : createdIds (insertFresh cfg w h tw th fmt user st).2.2 = [] := by
      unfold insertFresh; rw [if_neg hov, he]
      try rfl
    have hR : (insertFresh cfg w h tw th fmt user st).2.1.currentInstanceId =
        st.currentInstanceId := by
      unfold insertFresh; rw [if_neg hov, he]
      try rfl
    rw [hL, hR]
    exact (idRange_empty (by omega)).symm
  · have hL : createdIds (insertFresh cfg w h tw th fmt user st).2.2 = [] := by
      unfold insertFresh; rw [if_neg hov, he]
      try rfl
    have hR : (insertFresh cfg w h tw th fmt user st).2.1.currentInstanceId =
        st.currentInstanceId := by
      unfold insertFresh; rw [if_neg hov, he]
      try rfl
    rw [hL, hR]
    exact (idRange_empty (by omega)).symm
  · have hL : createdIds (insertFresh cfg w h tw th fmt user st).2.2 = [] := by
      unfold insertFresh; rw [if_neg hov, he]
      try rfl
    have hR : (insertFresh cfg w h tw th fmt user st).2.1.currentInstanceId =
        st.currentInstanceId := by
      unfold insertFresh; rw [if_neg hov, he]
      try rfl
    rw [hL, hR]
    exact (idRange_empty (by omega)).symm
  · have hL : createdIds (insertFresh cfg w h tw th fmt user st).2.2 =
        [st.currentInstanceId + 1] := by
      unfold insertFresh; rw [if_neg hov, he]
      try rfl
    have hR : (insertFresh cfg w h tw th fmt user st).2.1.currentInstanceId =
        st.currentInstanceId + 1 := by
      unfold insertFresh; rw [if_neg hov, he]
      try rfl
    rw [hL, hR]
    exact (idRange_single _).symm
  · have hL : createdIds (insertFresh cfg w h tw th fmt user st).2.2 = [] := by
      unfold insertFresh; rw [if_neg hov, he]
      try rfl
    have hR : (insertFresh cfg w h tw th fmt user st).2.1.currentInstanceId =
        st.currentInstanceId := by
      unfold insertFresh; rw [if_neg hov, he]
      try rfl
    rw [hL, hR]
    exact (idRange_empty (by omega)).symm

/-- A single `insert` emits exactly the `createAtlas` events for the ids
it advances through (none, or one when it wraps to a new instance). -/
theorem createdIds_insert (cfg : Config) (w h tw th fmt user : Int)
    (st : State) :
    createdIds (insert cfg w h tw th fmt user st).2.2 =
      idRange (st.currentInstanceId + 1)
        (insert cfg w h tw th fmt user st).2.1.currentInstanceId := by
  cases hl : lookupDiscarded st.discarded (w, h) with
  | some offs =>
      cases offs with
      | nil =>
          rw [insert_of_miss (Or.inr hl)]
          exact createdIds_insertFresh cfg w h tw th fmt user st
      | cons a l =>
          cases hlast : (a :: l).getLast? with
          | none => simp at hlast
          | some off =>
              have hL : createdIds (insert cfg w h tw th fmt user st).2.2 =
                  [] := by
                rw [insert_hit hl hlast]
                rfl
              have hR :
                  (insert cfg w h tw th fmt user st).2.1.currentInstanceId =
                  st.currentInstanceId := by
                rw [insert_hit hl hlast]
              rw [hL, hR]
              exact (idRange_empty (by omega)).symm
  | none =>
      rw [insert_of_miss (Or.inl hl)]
      exact createdIds_insertFresh cfg w h tw th fmt user st

theorem insertFresh_instId_mono (cfg : Config) (w h tw th fmt user : Int)
    (st : State) :
    st.currentInstanceId ≤
      (insertFresh cfg w h tw th fmt user st).2.1.currentInstanceId := by
  by_cases hov : h > cfg.height ∨ w > cfg.width
  · have hR : (insertFresh cfg w h tw th fmt user st).2.1.currentInstanceId =
        st.currentInstanceId := by
      rw [insertFresh_of_oversize hov]
    rw [hR]
  rcases getOffsetAndAdvance_cases cfg w h st with
    ⟨_, he⟩ | ⟨_, _, he⟩ | ⟨_, _, _, he⟩ | ⟨_, _, _, _, he⟩ | ⟨_, _, _, _, he⟩
  · have hR : (insertFresh cfg w h tw th fmt user st).2.1.currentInstanceId =
        st.currentInstanceId := by
      unfold insertFresh; rw [if_neg hov, he]
      try rfl
    rw [hR]
  · have hR : (insertFresh cfg w h tw th fmt user st).2.1.currentInstanceId =
        st.currentInstanceId := by
      unfold insertFresh; rw [if_neg hov, he]
      try rfl
    rw [hR]
  · have hR : (insertFresh cfg w h tw th fmt user st).2.1.currentInstanceId =
        st.currentInstanceId := by
      unfold insertFresh; rw [if_neg hov, he]
      try rfl
    rw [hR]
  · have hR : (insertFresh cfg w h tw th fmt user st).2.1.currentInstanceId =
        st.currentInstanceId + 1 := by
      unfold insertFresh; rw [if_neg hov, he]
      try rfl
    rw [hR]
    omega
  · have hR : (insertFresh cfg w h tw th fmt user st).2.1.currentInstanceId =
        st.currentInstanceId := by
      unfold insertFresh; rw [if_neg hov, he]
      try rfl
    rw [hR]

theorem insert_instId_mono (cfg : Config) (w h tw th fmt user : Int)
    (st : State) :
    st.currentInstanceId ≤
      (insert cfg w h tw th fmt user st).2.1.currentInstanceId := by
  cases hl : lookupDiscarded st.discarded (w, h) with
  | some offs =>
      cases offs with
      | nil =>
          rw [insert_of_miss (Or.inr hl)]
          exact insertFresh_instId_mono cfg w h tw th fmt user st
      | cons a l =>
          cases hlast : (a :: l).getLast? with
          | none => simp at hlast
          | some off =>
              have hR :
                  (insert cfg w h tw th fmt user st).2.1.currentInstanceId =
                  st.currentInstanceId := by
                rw [insert_hit hl hlast]
              rw [hR]
  | none =>
      rw [insert_of_miss (Or.inl hl)]
      exact insertFresh_instId_mono cfg w h tw th fmt user st

theorem release_instId (info : TextureInfo) (st : State) :
    (release info st).currentInstanceId = st.currentInstanceId := by
  unfold release
  by_cases hany : (st.textureInfos.any (fun p => decide (p = info))) = true
  · rw [if_pos hany]
  · rw [if_neg hany]

theorem applyOp_instId_mono {cfg : Config} {st : State} {op : Op}
    (hnc : Op.notClear op) :
    st.currentInstanceId ≤ (applyOp cfg st op).1.currentInstanceId := by
  cases op with
  | insert w h tw th fmt user => exact insert_instId_mono cfg w h tw th fmt user st
  | release info => exact le_of_eq (release_instId info st).symm
  | clear => exact hnc.elim

theorem execOps_instId_mono {cfg : Config} (ops : List Op) :
    ∀ st : State, (∀ op ∈ ops, Op.notClear op) →
      st.currentInstanceId ≤ (execOps cfg st ops).1.currentInstanceId := by
  induction ops with
  | nil => intro st _; exact le_refl _
  | cons op ops ih =>
      intro st hnc
      exact le_trans (applyOp_instId_mono (hnc op (List.mem_cons_self _ _)))
        (ih _ (fun o ho => hnc o (List.mem_cons_of_mem _ ho)))

theorem createdIds_applyOp {cfg : Config} {st : State} {op : Op}
    (hnc : Op.notClear op) :
    createdIds (applyOp cfg st op).2 =
      idRange (st.currentInstanceId + 1)
        (applyOp cfg st op).1.currentInstanceId := by
  cases op with
  | insert w h tw th fmt user => exact createdIds_insert cfg w h tw th fmt user st
  | release info =>
      show createdIds [] = idRange (st.currentInstanceId + 1)
        (release info st).currentInstanceId
      rw [release_instId info st]
      exact (idRange_empty (by omega)).symm
  | clear => exact hnc.elim

theorem createdIds_execOps {cfg : Config} (ops : List Op) :
    ∀ st : State, (∀ op ∈ ops, Op.notClear op) →
      createdIds (execOps cfg st ops).2 =
        idRange (st.currentInstanceId + 1)
          (execOps cfg st ops).1.currentInstanceId := by
  induction ops with
  | nil =>
      intro st _
      show createdIds ([] : List Event) =
        idRange (st.currentInstanceId + 1) st.currentInstanceId
      exact (idRange_empty (by omega)).symm
  | cons op ops ih =>
      intro st hnc
      show createdIds ((applyOp cfg st op).2 ++
          (execOps cfg (applyOp cfg st op).1 ops).2) =
        idRange (st.currentInstanceId + 1)
          ((execOps cfg (applyOp cfg st op).1 ops).1.currentInstanceId)
      rw [createdIds_append, createdIds_applyOp (hnc op (List.mem_cons_self _ _)),
        ih _ (fun o ho => hnc o (List.mem_cons_of_mem _ ho))]
      exact idRange_append
        (by have := @applyOp_instId_mono cfg st op
              (hnc op (List.mem_cons_self _ _)); omega)
        (execOps_instId_mono ops _ (fun o ho => hnc o (List.mem_cons_of_mem _ ho)))

theorem destroyEvents_eq_idRange (cfg : Config) (st : State) :
    destroyEvents cfg st =
      (idRange cfg.instanceBaseId st.currentInstanceId).map Event.destroyAtlas := by
  unfold destroyEvents idRange
  rw [List.map_map]
  rfl

/-- C3 (amended): over any run with no intervening `clear()`, destruction
issues exactly one `destroyAtlas` per `createAtlas` ever notified, in
creation order — `k` creations give `k` destructions covering every
created instance id exactly once. -/
theorem teardown_covers_creations_without_clear (cfg : Config)
    (ops : List Op) (hnc : ∀ op ∈ ops, Op.notClear op) :
    destroyEvents cfg (runOps cfg ops).1 =
      (createdIds (runOps cfg ops).2).map Event.destroyAtlas := by
  show destroyEvents cfg (execOps cfg (initState cfg) ops).1 =
    (createdIds (initEvents cfg ++ (execOps cfg (initState cfg) ops).2)).map
      Event.destroyAtlas
  rw [createdIds_append]
  have h0 : createdIds (initEvents cfg) = [cfg.instanceBaseId] := rfl
  have hinit : (initState cfg).currentInstanceId = cfg.instanceBaseId := rfl
  have hbase : cfg.instanceBaseId ≤
      (execOps cfg (initState cfg) ops).1.currentInstanceId := by
    have := @execOps_instId_mono cfg ops (initState cfg) hnc
    rw [hinit] at this
    exact this
  rw [h0, createdIds_execOps ops (initState cfg) hnc, hinit,
    List.singleton_append, idRange_cons hbase, destroyEvents_eq_idRange]

/-- Witness for `teardown_covers_creations_without_clear`: two unit
inserts into the growable 2x2 atlas (creating instances 0 and 1), no
`clear`. -/
theorem teardown_covers_creations_without_clear_witness :
    destroyEvents growCfg
        (runOps growCfg [Op.insert 1 1 0 0 0 0, Op.insert 1 1 0 0 0 0]).1 =
      (createdIds
        (runOps growCfg [Op.insert 1 1 0 0 0 0, Op.insert 1 1 0 0 0 0]).2).map
        Event.destroyAtlas :=
  teardown_covers_creations_without_clear growCfg
    [Op.insert 1 1 0 0 0 0, Op.insert 1 1 0 0 0 0] (by decide)

/-! ## Exhaustion: sentinel pinning and fail-fast behaviour -/

theorem sentinel_state_eq {cfg : Config} {st : State}
    (hsent : Sentinel cfg st) :
    ({ st with
        currentX := cfg.width
        currentY := cfg.height
        currentZ := cfg.depth
        maxTextureHeightInCurrentRow := 0 } : State) = st := by
  obtain ⟨hX, hY, hZ, hM⟩ := hsent
  rw [← hX, ← hY, ← hZ, ← hM]

/-- At the sentinel cursor with a single instance allowed, the packing
walk fails and recomputes exactly the same sentinel state. -/
theorem advance_at_sentinel {cfg : Config} {w h : Int} {st : State}
    (hhg : 0 ≤ cfg.horizontalGap) (hvg : 0 ≤ cfg.verticalGap)
    (hw : 0 ≤ w) (hh : 0 ≤ h) (hmax : cfg.maxInstances ≤ 1)
    (hbase : cfg.instanceBaseId ≤ st.currentInstanceId)
    (hsent : Sentinel cfg st) :
    getOffsetAndAdvance cfg w h st = (none, st, []) := by
  obtain ⟨hX, hY, hZ, hM⟩ := hsent
  have hfail := @getOffsetAndAdvance_fail cfg w h st
    (by omega) (by rw [hY, hM]; omega) (by omega) (by omega)
  rw [hfail, sentinel_state_eq ⟨hX, hY, hZ, hM⟩]

/-- A free-list-missing `insert` at the sentinel cursor fails, changes
nothing and emits no backend event at all. -/
theorem insert_at_sentinel {cfg : Config} {w h tw th fmt user : Int}
    {st : State}
    (hhg : 0 ≤ cfg.horizontalGap) (hvg : 0 ≤ cfg.verticalGap)
    (hw : 0 ≤ w) (hh : 0 ≤ h) (hmax : cfg.maxInstances ≤ 1)
    (hbase : cfg.instanceBaseId ≤ st.currentInstanceId)
    (hsent : Sentinel cfg st) (hm : lookupMiss st (w, h)) :
    insert cfg w h tw th fmt user st = (none, st, []) := by
  rw [insert_of_miss hm]
  by_cases hov : h > cfg.height ∨ w > cfg.width
  · exact insertFresh_of_oversize hov
  · exact insertFresh_of_advance_fail hov
      (advance_at_sentinel hhg hvg hw hh hmax hbase hsent)

theorem release_cursor_frame (info : TextureInfo) (st : State) :
    (release info st).cursor = st.cursor := by
  unfold release
  by_cases hany : (st.textureInfos.any (fun p => decide (p = info))) = true
  · rw [if_pos hany]
    rfl
  · rw [if_neg hany]

theorem insert_hit_cursor_frame {cfg : Config} {w h tw th fmt user : Int}
    {st : State} {offs : List Offset} {off : Offset}
    (hl : lookupDiscarded st.discarded (w, h) = some offs)
    (hlast : offs.getLast? = some off) :
    (insert cfg w h tw th fmt user st).2.1.cursor = st.cursor := by
  rw [insert_hit hl hlast]
  rfl

/-- The sentinel cursor and the in-range instance id persist across any
further `insert`/`release` traffic (with nonnegative request sizes), and
no `createAtlas` is ever emitted while exhausted with `maxInstances = 1`. -/
theorem sentinel_persists {cfg : Config}
    (hhg : 0 ≤ cfg.horizontalGap) (hvg : 0 ≤ cfg.verticalGap)
    (hmax : cfg.maxInstances ≤ 1) (ops : List Op) :
    ∀ st : State, (∀ op ∈ ops, Op.isInsertOrRelease op) →
      Sentinel cfg st → cfg.instanceBaseId ≤ st.currentInstanceId →
      (Sentinel cfg (execOps cfg st ops).1 ∧
        cfg.instanceBaseId ≤ (execOps cfg st ops).1.currentInstanceId ∧
        createdIds (execOps cfg st ops).2 = []) := by
  induction ops with
  | nil => intro st _ hsent hbase; exact ⟨hsent, hbase, rfl⟩
  | cons op ops ih =>
      intro st hops hsent hbase
      have hop := hops op (List.mem_cons_self _ _)
      have hops' : ∀ o ∈ ops, Op.isInsertOrRelease o :=
        fun o ho => hops o (List.mem_cons_of_mem _ ho)
      have hstep : Sentinel cfg (applyOp cfg st op).1 ∧
          cfg.instanceBaseId ≤ (applyOp cfg st op).1.currentInstanceId ∧
          createdIds (applyOp cfg st op).2 = [] := by
        cases op with
        | clear => exact hop.elim
        | release info =>
            have hc := release_cursor_frame info st
            have hX : (release info st).currentX = st.currentX :=
              congrArg (fun c => c.2.2.1) hc
            have hY : (release info st).currentY = st.currentY :=
              congrArg (fun c => c.2.2.2.1) hc
            have hZ : (release info st).currentZ = st.currentZ :=
              congrArg (fun c => c.2.1) hc
            have hM : (release info st).maxTextureHeightInCurrentRow =
                st.maxTextureHeightInCurrentRow :=
              congrArg (fun c => c.2.2.2.2) hc
            have hI : (release info st).currentInstanceId =
                st.currentInstanceId :=
              congrArg (fun c => c.1) hc
            obtain ⟨sX, sY, sZ, sM⟩ := hsent
            show Sentinel cfg (release info st) ∧
              cfg.instanceBaseId ≤ (release info st).currentInstanceId ∧
              createdIds ([] : List Event) = []
            exact ⟨⟨by rw [hX, sX], by rw [hY, sY], by rw [hZ, sZ],
              by rw [hM, sM]⟩, by rw [hI]; exact hbase, rfl⟩
        | insert w h tw th fmt user =>
            obtain ⟨hw, hh⟩ := hop
            cases hl : lookupDiscarded st.discarded (w, h) with
            | none =>
                have he := @insert_at_sentinel cfg w h tw th fmt user st
                  hhg hvg hw hh hmax hbase hsent (Or.inl hl)
                show Sentinel cfg (insert cfg w h tw th fmt user st).2.1 ∧
                  cfg.instanceBaseId ≤
                    (insert cfg w h tw th fmt user st).2.1.currentInstanceId ∧
                  createdIds (insert cfg w h tw th fmt user st).2.2 = []
                rw [he]
                exact ⟨hsent, hbase, rfl⟩
            | some offs =>
                cases offs with
                | nil =>
                    have he := @insert_at_sentinel cfg w h tw th fmt user st
                      hhg hvg hw hh hmax hbase hsent (Or.inr hl)
                    show Sentinel cfg (insert cfg w h tw th fmt user st).2.1 ∧
                      cfg.instanceBaseId ≤
                        (insert cfg w h tw th fmt user
                          st).2.1.currentInstanceId ∧
                      createdIds (insert cfg w h tw th fmt user st).2.2 = []
                    rw [he]
                    exact ⟨hsent, hbase, rfl⟩
                | cons a l =>
                    cases hlast : (a :: l).getLast? with
                    | none => simp at hlast
                    | some off =>
                        have he := @insert_hit cfg w h tw th fmt user st
                          (a :: l) off hl hlast
                        show Sentinel cfg
                            (insert cfg w h tw th fmt user st).2.1 ∧
                          cfg.instanceBaseId ≤
                            (insert cfg w h tw th fmt user
                              st).2.1.currentInstanceId ∧
                          createdIds
                            (insert cfg w h tw th fmt user st).2.2 = []
                        rw [he]
                        obtain ⟨sX, sY, sZ, sM⟩ := hsent
                        exact ⟨⟨sX, sY, sZ, sM⟩, hbase, rfl⟩
      obtain ⟨h1, h2, h3⟩ := hstep
      obtain ⟨g1, g2, g3⟩ := ih (applyOp cfg st op).1 hops' h1 h2
      refine ⟨g1, g2, ?_⟩
      show createdIds ((applyOp cfg st op).2 ++
        (execOps cfg (applyOp cfg st op).1 ops).2) = []
      rw [createdIds_append, h3, g3]
      rfl

/-- C6 (in three parts, for `depth = 1` and `maxInstances = 1` with
nonnegative gaps): (1) an `insert` that fails does so with no backend
event — in particular no `createAtlas` beyond the first instance — and
either leaves the state untouched or pins the cursor at the sentinel full
position `(x, y, z) = (pageWidth, pageHeight, depth)`; (2) at the
sentinel, any `insert` with no matching free-list entry fails and changes
nothing; (3) the sentinel persists across all further `insert`/`release`
traffic, during which no `createAtlas` is ever emitted. -/
theorem exhausted_atlas_fails_fast (cfg : Config)
    (_hdepth : cfg.depth = 1) (hmaxi : cfg.maxInstances = 1)
    (hhg : 0 ≤ cfg.horizontalGap) (hvg : 0 ≤ cfg.verticalGap) :
    (∀ (st : State) (w h tw th fmt user : Int) (st' : State)
        (evs : List Event),
      insert cfg w h tw th fmt user st = (none, st', evs) →
        evs = [] ∧ (st' = st ∨ Sentinel cfg st')) ∧
    (∀ st : State, Sentinel cfg st →
      cfg.instanceBaseId ≤ st.currentInstanceId →
      ∀ w h tw th fmt user : Int, 0 ≤ w → 0 ≤ h → lookupMiss st (w, h) →
        insert cfg w h tw th fmt user st = (none, st, [])) ∧
    (∀ (st : State) (ops : List Op),
      (∀ op ∈ ops, Op.isInsertOrRelease op) → Sentinel cfg st →
      cfg.instanceBaseId ≤ st.currentInstanceId →
      Sentinel cfg (execOps cfg st ops).1 ∧
        createdIds (execOps cfg st ops).2 = []) := by
  refine ⟨?_, ?_, ?_⟩
  · intro st w h tw th fmt user st' evs hins
    rcases insert_effect_dichotomy cfg w h tw th fmt user st with
      ⟨i, st2, evs2, heq, -⟩ | ⟨st2, heq, -, -, -, hst⟩
    · rw [heq] at hins
      exact absurd (congrArg (fun r => r.1) hins) (by simp)
    · rw [heq] at hins
      have hst' : st2 = st' := congrArg (fun r => r.2.1) hins
      have hevs : evs = [] := (congrArg (fun r => r.2.2) hins).symm
      exact ⟨hevs, hst' ▸ hst⟩
  · intro st hsent hbase w h tw th fmt user hw hh hm
    exact insert_at_sentinel hhg hvg hw hh (by omega) hbase hsent hm
  · intro st ops hops hsent hbase
    obtain ⟨g1, -, g3⟩ := sentinel_persists hhg hvg (by omega) ops st hops
      hsent hbase
    exact ⟨g1, g3⟩

/-- Witness for `exhausted_atlas_fails_fast`: at the sentinel state of
the exhausted single-instance 2x2 atlas, a unit insert fails in place. -/
theorem exhausted_atlas_fails_fast_witness :
    insert tinyCfg 1 1 0 0 0 0
        { currentInstanceId := 0, currentZ := 1, currentX := 2,
          currentY := 2, maxTextureHeightInCurrentRow := 0, discarded := [],
          textureInfos := [] } =
      (none,
       { currentInstanceId := 0, currentZ := 1, currentX := 2,
         currentY := 2, maxTextureHeightInCurrentRow := 0, discarded := [],
         textureInfos := [] },
       []) :=
  (exhausted_atlas_fails_fast tinyCfg rfl rfl (by decide) (by decide)).2.1
    _ (by decide) (by decide) 1 1 0 0 0 0 (by decide) (by decide) (by decide)

/-! ## Shelf-packing geometry: pairwise disjointness of placements -/

/-- The heart of the non-overlap argument: a successful packing walk
yields a fresh rectangle that cannot overlap any record behind the old
cursor, and re-establishes the cursor relation for old and new records. -/
theorem advance_some_spec {cfg : Config} {w h tw th user : Int} {st : State}
    {off : Offset} {st' : State} {evs : List Event}
    (hhg : 0 ≤ cfg.horizontalGap) (hvg : 0 ≤ cfg.verticalGap)
    (hdepth : 0 < cfg.depth) (hw : 0 ≤ w) (hh : 0 ≤ h)
    (hB : 0 ≤ st.maxTextureHeightInCurrentRow)
    (hC : st.currentZ < cfg.depth ∨ Sentinel cfg st)
    (hadv : getOffsetAndAdvance cfg w h st = (some off, st', evs)) :
    0 ≤ st'.maxTextureHeightInCurrentRow ∧
    (st'.currentZ < cfg.depth ∨ Sentinel cfg st') ∧
    (mkTextureInfo cfg w h tw th off user).z < cfg.depth ∧
    posRel cfg st' (mkTextureInfo cfg w h tw th off user) ∧
    (∀ p : TextureInfo, p.z < cfg.depth → posRel cfg st p →
      posRel cfg st' p ∧ ¬ Overlaps p (mkTextureInfo cfg w h tw th off user)) := by
  rcases getOffsetAndAdvance_cases cfg w h st with
    ⟨hx, he⟩ | ⟨hx, hy, he⟩ | ⟨hx, hy, hz, he⟩ | ⟨hx, hy, hz, hi, he⟩ |
    ⟨hx, hy, hz, hi, he⟩
  -- row fit: place at the cursor of `st`.
  · rw [he] at hadv
    simp only [placeAndAdvance, Prod.mk.injEq, Option.some.injEq] at hadv
    obtain ⟨hoff, hst', -⟩ := hadv
    subst hoff
    subst hst'
    have hZlt : st.currentZ < cfg.depth := by
      rcases hC with hC | ⟨hX, -, -, -⟩
      · exact hC
      · omega
    refine ⟨le_trans hh (le_max_right _ _), Or.inl hZlt, hZlt, ?_, ?_⟩
    · exact Or.inr ⟨rfl, Or.inr ⟨rfl, Or.inr ⟨rfl, by
        show st.currentX + w ≤ st.currentX + w + cfg.horizontalGap
        omega, le_max_right _ _⟩⟩⟩
    · intro p hzp hpos
      constructor
      · rcases hpos with hpos | ⟨ha, hpos⟩
        · exact Or.inl hpos
        rcases hpos with hpos | ⟨hzeq, hpos⟩
        · exact Or.inr ⟨ha, Or.inl hpos⟩
        rcases hpos with hpos | ⟨hyeq, hxle, hble⟩
        · exact Or.inr ⟨ha, Or.inr ⟨hzeq, Or.inl hpos⟩⟩
        · refine Or.inr ⟨ha, Or.inr ⟨hzeq, Or.inr ⟨hyeq, ?_, ?_⟩⟩⟩
          · show p.x + p.width ≤ st.currentX + w + cfg.horizontalGap
            omega
          · exact le_trans hble (le_max_left _ _)
      · intro hov
        simp only [Overlaps, mkTextureInfo, State.offset] at hov
        obtain ⟨o1, o2, o3, o4, o5, o6⟩ := hov
        rcases hpos with hpos | ⟨ha, hpos⟩
        · omega
        rcases hpos with hpos | ⟨hzeq, hpos⟩
        · omega
        rcases hpos with hpos | ⟨hyeq, hxle, hble⟩
        · omega
        · omega
  -- row wrap: place at `(0, currentY + maxRow + verticalGap)`.
  · rw [he] at hadv
    simp only [placeAndAdvance, Prod.mk.injEq, Option.some.injEq] at hadv
    obtain ⟨hoff, hst', -⟩ := hadv
    subst hoff
    subst hst'
    have hZlt : st.currentZ < cfg.depth := by
      rcases hC with hC | ⟨-, hY, -, hM⟩
      · exact hC
      · rw [hY, hM] at hy
        omega
    refine ⟨le_trans hh (le_max_right _ _), Or.inl hZlt, hZlt, ?_, ?_⟩
    · exact Or.inr ⟨rfl, Or.inr ⟨rfl, Or.inr ⟨rfl, by
        show (0 : Int) + w ≤ 0 + w + cfg.horizontalGap
        omega, le_max_right _ _⟩⟩⟩
    · intro p hzp hpos
      constructor
      · rcases hpos with hpos | ⟨ha, hpos⟩
        · exact Or.inl hpos
        rcases hpos with hpos | ⟨hzeq, hpos⟩
        · exact Or.inr ⟨ha, Or.inl hpos⟩
        rcases hpos with hpos | ⟨hyeq, hxle, hble⟩
        · refine Or.inr ⟨ha, Or.inr ⟨hzeq, Or.inl ?_⟩⟩
          show p.y + p.height ≤
            st.currentY + st.maxTextureHeightInCurrentRow + cfg.verticalGap
          omega
        · refine Or.inr ⟨ha, Or.inr ⟨hzeq, Or.inl ?_⟩⟩
          show p.y + p.height ≤
            st.currentY + st.maxTextureHeightInCurrentRow + cfg.verticalGap
          omega
      · intro hov
        simp only [Overlaps, mkTextureInfo, State.offset] at hov
        obtain ⟨o1, o2, o3, o4, o5, o6⟩ := hov
        rcases hpos with hpos | ⟨ha, hpos⟩
        · omega
        rcases hpos with hpos | ⟨hzeq, hpos⟩
        · omega
        rcases hpos with hpos | ⟨hyeq, hxle, hble⟩
        · omega
        · omega
  -- layer wrap: place at `(0, 0)` of layer `currentZ + 1`.
  · rw [he] at hadv
    simp only [placeAndAdvance, Prod.mk.injEq, Option.some.injEq] at hadv
    obtain ⟨hoff, hst', -⟩ := hadv
    subst hoff
    subst hst'
    refine ⟨le_trans hh (le_max_right _ _), Or.inl hz, hz, ?_, ?_⟩
    · exact Or.inr ⟨rfl, Or.inr ⟨rfl, Or.inr ⟨rfl, by
        show (0 : Int) + w ≤ 0 + w + cfg.horizontalGap
        omega, le_max_right _ _⟩⟩⟩
    · intro p hzp hpos
      have hple : p.atlas < st.currentInstanceId ∨
          (p.atlas = st.currentInstanceId ∧ p.z ≤ st.currentZ) := by
        rcases hpos with hpos | ⟨ha, hpos⟩
        · exact Or.inl hpos
        rcases hpos with hpos | ⟨hzeq, -⟩
        · exact Or.inr ⟨ha, le_of_lt hpos⟩
        · exact Or.inr ⟨ha, le_of_eq hzeq⟩
      constructor
      · rcases hple with hple | ⟨ha, hple⟩
        · exact Or.inl hple
        · exact Or.inr ⟨ha, Or.inl (by
            show p.z < st.currentZ + 1
            omega)⟩
      · intro hov
        simp only [Overlaps, mkTextureInfo, State.offset] at hov
        obtain ⟨o1, o2, -⟩ := hov
        rcases hple with hple | ⟨-, hple⟩
        · omega
        · omega
  -- instance wrap: place at `(0, 0, 0)` of instance `currentInstanceId + 1`.
  · rw [he] at hadv
    simp only [placeAndAdvance, Prod.mk.injEq, Option.some.injEq] at hadv
    obtain ⟨hoff, hst', -⟩ := hadv
    subst hoff
    subst hst'
    refine ⟨le_trans hh (le_max_right _ _), Or.inl hdepth, hdepth, ?_, ?_⟩
    · exact Or.inr ⟨rfl, Or.inr ⟨rfl, Or.inr ⟨rfl, by
        show (0 : Int) + w ≤ 0 + w + cfg.horizontalGap
        omega, le_max_right _ _⟩⟩⟩
    · intro p hzp hpos
      have hple : p.atlas ≤ st.currentInstanceId := by
        rcases hpos with hpos | ⟨ha, -⟩
        · exact le_of_lt hpos
        · exact le_of_eq ha
      constructor
      · exact Or.inl (by
          show p.atlas < st.currentInstanceId + 1
          omega)
      · intro hov
        simp only [Overlaps, mkTextureInfo, State.offset] at hov
        obtain ⟨o1, -⟩ := hov
        omega
  -- exhaustion: contradicts the successful result.
  · rw [he] at hadv
    exact absurd (congrArg (fun r => r.1) hadv) (by simp)

theorem packInv_insert {cfg : Config} {w h tw th fmt user : Int} {st : State}
    (hcfg : GapsOK cfg) (hw : 0 ≤ w) (hh : 0 ≤ h)
    (hinv : PackInv cfg st) :
    PackInv cfg (insert cfg w h tw th fmt user st).2.1 := by
  obtain ⟨hA, hB, hC, hD, hE⟩ := hinv
  obtain ⟨hhg, hvg, hdepth⟩ := hcfg
  have hl : lookupDiscarded st.discarded (w, h) = none := by rw [hA]; rfl
  rw [insert_of_miss (Or.inl hl)]
  by_cases hov : h > cfg.height ∨ w > cfg.width
  · rw [insertFresh_of_oversize hov]
    exact ⟨hA, hB, hC, hD, hE⟩
  rcases hres : getOffsetAndAdvance cfg w h st with ⟨ores, st1, evs1⟩
  have hframe := getOffsetAndAdvance_frame cfg w h st
  rw [hres] at hframe
  obtain ⟨hfd, hft, -⟩ := hframe
  cases ores with
  | none =>
      rw [insertFresh_of_advance_fail hov hres]
      rcases getOffsetAndAdvance_cases cfg w h st with
        ⟨-, he⟩ | ⟨-, -, he⟩ | ⟨-, -, -, he⟩ | ⟨-, -, -, -, he⟩ |
        ⟨-, -, -, -, he⟩ <;> rw [he] at hres
      · exact absurd (congrArg (fun r => r.1) hres) (by simp [placeAndAdvance])
      · exact absurd (congrArg (fun r => r.1) hres) (by simp [placeAndAdvance])
      · exact absurd (congrArg (fun r => r.1) hres) (by simp [placeAndAdvance])
      · exact absurd (congrArg (fun r => r.1) hres) (by simp [placeAndAdvance])
      · have hst1 : ({ st with
            currentX := cfg.width
            currentY := cfg.height
            currentZ := cfg.depth
            maxTextureHeightInCurrentRow := 0 } : State) = st1 :=
          congrArg (fun r => r.2.1) hres
        subst hst1
        refine ⟨hA, le_refl _, Or.inr ⟨rfl, rfl, rfl, rfl⟩, ?_, hE⟩
        intro p hp
        obtain ⟨hzp, hpos⟩ := hD p hp
        refine ⟨hzp, ?_⟩
        rcases hpos with hpos | ⟨ha, -⟩
        · exact Or.inl hpos
        · exact Or.inr ⟨ha, Or.inl hzp⟩
  | some off =>
      rw [insertFresh_of_advance_ok hov hres]
      obtain ⟨s1, s2, s3, s4, s5⟩ := @advance_some_spec cfg w h tw th user
        st off st1 evs1 hhg hvg hdepth hw hh hB hC hres
      refine ⟨?_, s1, s2, ?_, ?_⟩
      · show st1.discarded = []
        rw [hfd, hA]
      · intro p hp
        rcases List.mem_append.mp hp with hp' | hp'
        · rw [hft] at hp'
          obtain ⟨hzp, hpos⟩ := hD p hp'
          exact ⟨hzp, (s5 p hzp hpos).1⟩
        · rw [List.mem_singleton.mp hp']
          exact ⟨s3, s4⟩
      · show List.Pairwise (fun p q => ¬ Overlaps p q)
          (st1.textureInfos ++ [mkTextureInfo cfg w h tw th off user])
        rw [hft]
        refine List.pairwise_append.mpr ⟨hE, by simp, ?_⟩
        intro a ha b hb
        rw [List.mem_singleton.mp hb]
        obtain ⟨hza, hposa⟩ := hD a ha
        exact (s5 a hza hposa).2

theorem packInv_init (cfg : Config) (hdepth : 0 < cfg.depth) :
    PackInv cfg (initState cfg) := by
  unfold initState
  refine ⟨rfl, le_refl _, Or.inl ?_, ?_, List.Pairwise.nil⟩
  · show (0 : Int) < cfg.depth
    exact hdepth
  · intro p hp
    exact absurd hp (List.not_mem_nil p)

/-- The shelf invariant holds after any insert-only trace with
nonnegative request sizes. -/
theorem packInv_execOps {cfg : Config} (hcfg : GapsOK cfg) (ops : List Op)
    (hops : ∀ op ∈ ops, Op.isInsertNonneg op) :
    PackInv cfg (execOps cfg (initState cfg) ops).1 := by
  refine execOps_preserve (Q := Op.isInsertNonneg) ?_ ops (initState cfg)
    hops (packInv_init cfg hcfg.2.2)
  intro st op hop hP
  cases op with
  | insert w h tw th fmt user => exact packInv_insert hcfg hop.1 hop.2 hP
  | release info => exact hop.elim
  | clear => exact hop.elim

/-- C1: after any sequence of `insert` calls (nonnegative sizes, no
intervening `release`), the live placements are pairwise non-overlapping:
no two distinct records with the same instance and layer intersect in
their half-open `(x, y)` extents. -/
theorem insert_only_placements_disjoint (cfg : Config)
    (hhg : 0 ≤ cfg.horizontalGap) (hvg : 0 ≤ cfg.verticalGap)
    (hdepth : 0 < cfg.depth) (ops : List Op)
    (hops : ∀ op ∈ ops, Op.isInsertNonneg op) :
    List.Pairwise (fun p q => ¬ Overlaps p q)
      (execOps cfg (initState cfg) ops).1.textureInfos :=
  (packInv_execOps ⟨hhg, hvg, hdepth⟩ ops hops).2.2.2.2

/-- Witness for `insert_only_placements_disjoint`: the four-insert run on
the 10x10 page (including the bottom-overflowing placement, which still
overlaps nothing). -/
theorem insert_only_placements_disjoint_witness :
    List.Pairwise (fun p q => ¬ Overlaps p q)
      (execOps squareCfg (initState squareCfg) overflowOps).1.textureInfos :=
  insert_only_placements_disjoint squareCfg (by decide) (by decide)
    (by decide) overflowOps (by decide)

/-! ## The tracked row height is the layer-wide maximum -/

theorem heightsIn_append (I Z : Int) (l1 l2 : List TextureInfo) :
    heightsIn I Z (l1 ++ l2) = heightsIn I Z l1 ++ heightsIn I Z l2 := by
  simp [heightsIn, List.filter_append]

theorem heightsIn_single_mem {I Z : Int} {p : TextureInfo}
    (hp : p.atlas = I ∧ p.z = Z) : heightsIn I Z [p] = [p.height] := by
  simp [heightsIn, List.filter, hp.1, hp.2]

theorem heightsIn_nil_of {I Z : Int} {l : List TextureInfo}
    (h : ∀ p ∈ l, ¬(p.atlas = I ∧ p.z = Z)) : heightsIn I Z l = [] := by
  unfold heightsIn
  rw [List.filter_eq_nil_iff.mpr]
  · rfl
  · intro p hp
    simpa using h p hp

theorem foldr_max_shift {l : List Int} {c : Int} (hc : 0 ≤ c) :
    l.foldr max c = max (l.foldr max 0) c := by
  induction l with
  | nil => simp [max_eq_right hc]
  | cons x l ih =>
      simp only [List.foldr_cons, ih]
      rw [max_assoc]

theorem foldr_max_append_single {l : List Int} {c : Int} (hc : 0 ≤ c) :
    (l ++ [c]).foldr max 0 = max (l.foldr max 0) c := by
  rw [List.foldr_append]
  show l.foldr max (max c 0) = _
  rw [max_eq_left hc]
  exact foldr_max_shift hc

/-- One insert keeps `maxTextureHeightInCurrentRow_` equal to the layer
maximum (resetting only at layer/instance wraps and exhaustion, where the
new layer holds no previous placement). -/
theorem rowInv_insert {cfg : Config} {w h tw th fmt user : Int} {st : State}
    (hcfg : GapsOK cfg) (_hw : 0 ≤ w) (hh : 0 ≤ h)
    (hinv : PackInv cfg st)
    (hrow : st.maxTextureHeightInCurrentRow = layerMaxHeight st) :
    (insert cfg w h tw th fmt user st).2.1.maxTextureHeightInCurrentRow =
      layerMaxHeight (insert cfg w h tw th fmt user st).2.1 := by
  obtain ⟨hA, hB, hC, hD, hE⟩ := hinv
  obtain ⟨hhg, hvg, hdepth⟩ := hcfg
  have hrow' : st.maxTextureHeightInCurrentRow =
      (heightsIn st.currentInstanceId st.currentZ st.textureInfos).foldr
        max 0 := hrow
  have hl : lookupDiscarded st.discarded (w, h) = none := by rw [hA]; rfl
  rw [insert_of_miss (Or.inl hl)]
  by_cases hov : h > cfg.height ∨ w > cfg.width
  · rw [insertFresh_of_oversize hov]
    exact hrow
  rcases getOffsetAndAdvance_cases cfg w h st with
    ⟨hx, he⟩ | ⟨hx, hy, he⟩ | ⟨hx, hy, hz, he⟩ | ⟨hx, hy, hz, hi, he⟩ |
    ⟨hx, hy, hz, hi, he⟩ <;>
    (unfold insertFresh; rw [if_neg hov, he];
     simp only [placeAndAdvance, appendTextureInfo])
  -- row fit: same layer, new record appended.
  · show max st.maxTextureHeightInCurrentRow h =
      (heightsIn st.currentInstanceId st.currentZ
        (st.textureInfos ++ [mkTextureInfo cfg w h tw th
          (State.offset st) user])).foldr max 0
    rw [heightsIn_append, heightsIn_single_mem (I := st.currentInstanceId)
      (Z := st.currentZ) ⟨rfl, rfl⟩]
    simp only [mkTextureInfo]
    rw [foldr_max_append_single hh, ← hrow']
  -- row wrap: same layer, new record appended.
  · show max st.maxTextureHeightInCurrentRow h =
      (heightsIn st.currentInstanceId st.currentZ
        (st.textureInfos ++ [mkTextureInfo cfg w h tw th
          (State.offset { st with
              currentX := 0
              currentY := st.currentY + st.maxTextureHeightInCurrentRow
                            + cfg.verticalGap }) user])).foldr max 0
    rw [heightsIn_append, heightsIn_single_mem (I := st.currentInstanceId)
      (Z := st.currentZ) ⟨rfl, rfl⟩]
    simp only [mkTextureInfo]
    rw [foldr_max_append_single hh, ← hrow']
  -- layer wrap: the new layer contains no old record.
  · show max 0 h =
      (heightsIn st.currentInstanceId (st.currentZ + 1)
        (st.textureInfos ++ [mkTextureInfo cfg w h tw th
          (State.offset { st with
              currentX := 0
              currentY := 0
              maxTextureHeightInCurrentRow := 0
              currentZ := st.currentZ + 1 }) user])).foldr max 0
    rw [heightsIn_append, heightsIn_single_mem (I := st.currentInstanceId)
      (Z := st.currentZ + 1) ⟨rfl, rfl⟩]
    simp only [mkTextureInfo]
    rw [foldr_max_append_single hh, heightsIn_nil_of ?hempty]
    · show max 0 h = max (List.foldr max 0 []) h
      rfl
    case hempty =>
      intro p hp hmem
      obtain ⟨hzp, hpos⟩ := hD p hp
      rcases hpos with hpos | ⟨ha, hpos⟩
      · omega
      rcases hpos with hpos | ⟨hzeq, -⟩
      · omega
      · omega
  -- instance wrap: the fresh instance contains no old record.
  · show max 0 h =
      (heightsIn (st.currentInstanceId + 1) 0
        (st.textureInfos ++ [mkTextureInfo cfg w h tw th
          (State.offset { st with
              currentX := 0
              currentY := 0
              maxTextureHeightInCurrentRow := 0
              currentZ := 0
              currentInstanceId := st.currentInstanceId + 1 }) user])).foldr
        max 0
    rw [heightsIn_append, heightsIn_single_mem
      (I := st.currentInstanceId + 1) (Z := 0) ⟨rfl, rfl⟩]
    simp only [mkTextureInfo]
    rw [foldr_max_append_single hh, heightsIn_nil_of ?hempty2]
    · show max 0 h = max (List.foldr max 0 []) h
      rfl
    case hempty2 =>
      intro p hp hmem
      obtain ⟨hzp, hpos⟩ := hD p hp
      rcases hpos with hpos | ⟨ha, -⟩
      · omega
      · omega
  -- exhaustion: the sentinel layer `depth` contains no record at all.
  · show (0 : Int) =
      (heightsIn st.currentInstanceId cfg.depth st.textureInfos).foldr max 0
    rw [heightsIn_nil_of ?hempty3]
    case hempty3 =>
      intro p hp hmem
      obtain ⟨hzp, -⟩ := hD p hp
      omega
    rfl

/-- The shelf and row-height invariants along an insert-only trace. -/
theorem packRowInv_execOps {cfg : Config} (hcfg : GapsOK cfg)
    (ops : List Op) (hops : ∀ op ∈ ops, Op.isInsertNonneg op) :
    PackInv cfg (execOps cfg (initState cfg) ops).1 ∧
      (execOps cfg (initState cfg) ops).1.maxTextureHeightInCurrentRow =
        layerMaxHeight (execOps cfg (initState cfg) ops).1 := by
  refine execOps_preserve (Q := Op.isInsertNonneg)
    (P := fun st => PackInv cfg st ∧
      st.maxTextureHeightInCurrentRow = layerMaxHeight st) ?_ ops
    (initState cfg) hops ⟨packInv_init cfg hcfg.2.2, rfl⟩
  intro st op hop hP
  cases op with
  | insert w h tw th fmt user =>
      exact ⟨packInv_insert hcfg hop.1 hop.2 hP.1,
        rowInv_insert hcfg hop.1 hop.2 hP.1 hP.2⟩
  | release info => exact hop.elim
  | clear => exact hop.elim

/-- C10: along any insert-only trace (nonnegative sizes), the tracked
`maxTextureHeightInCurrentRow_` equals the maximum height over all
placements made in the cursor's current instance and layer — it is reset
only on layer/instance wraps, never on a row wrap — and therefore a row
wrap that stays within the current layer advances `currentY` by that
layer-wide maximum plus the vertical gap, not merely by the tallest
placement of the row just closed. -/
theorem row_height_tracks_layer_max (cfg : Config)
    (hhg : 0 ≤ cfg.horizontalGap) (hvg : 0 ≤ cfg.verticalGap)
    (hdepth : 0 < cfg.depth) (ops : List Op)
    (hops : ∀ op ∈ ops, Op.isInsertNonneg op) :
    (execOps cfg (initState cfg) ops).1.maxTextureHeightInCurrentRow =
      layerMaxHeight (execOps cfg (initState cfg) ops).1 ∧
    (∀ w h : Int,
      ¬((execOps cfg (initState cfg) ops).1.currentX + cfg.horizontalGap + w
          < cfg.width) →
      (execOps cfg (initState cfg) ops).1.currentY +
          (execOps cfg (initState cfg) ops).1.maxTextureHeightInCurrentRow +
          cfg.verticalGap + h < cfg.height →
      (getOffsetAndAdvance cfg w h (execOps cfg (initState cfg) ops).1).1 =
        some ⟨(execOps cfg (initState cfg) ops).1.currentInstanceId, 0,
          (execOps cfg (initState cfg) ops).1.currentY +
            layerMaxHeight (execOps cfg (initState cfg) ops).1 +
            cfg.verticalGap,
          (execOps cfg (initState cfg) ops).1.currentZ⟩) := by
  obtain ⟨-, hrow⟩ := packRowInv_execOps ⟨hhg, hvg, hdepth⟩ ops hops
  refine ⟨hrow, ?_⟩
  intro w h hx hy
  rw [getOffsetAndAdvance_rowWrap hx hy]
  show some (⟨(execOps cfg (initState cfg) ops).1.currentInstanceId, 0,
      (execOps cfg (initState cfg) ops).1.currentY +
        (execOps cfg (initState cfg) ops).1.maxTextureHeightInCurrentRow +
        cfg.verticalGap,
      (execOps cfg (initState cfg) ops).1.currentZ⟩ : Offset) =
    some (⟨(execOps cfg (initState cfg) ops).1.currentInstanceId, 0,
      (execOps cfg (initState cfg) ops).1.currentY +
        layerMaxHeight (execOps cfg (initState cfg) ops).1 +
        cfg.verticalGap,
      (execOps cfg (initState cfg) ops).1.currentZ⟩ : Offset)
  rw [hrow]

/-- Witness for `row_height_tracks_layer_max`: after heights 4 and 5 in
the first row, a row wrap advances `currentY` by the layer maximum 5. -/
theorem row_height_tracks_layer_max_witness :
    (execOps squareCfg (initState squareCfg)
        rowDemoOps).1.maxTextureHeightInCurrentRow =
      layerMaxHeight (execOps squareCfg (initState squareCfg) rowDemoOps).1 ∧
    (getOffsetAndAdvance squareCfg 9 1
        (execOps squareCfg (initState squareCfg) rowDemoOps).1).1 =
      some ⟨(execOps squareCfg (initState squareCfg)
          rowDemoOps).1.currentInstanceId, 0,
        (execOps squareCfg (initState squareCfg) rowDemoOps).1.currentY +
          layerMaxHeight (execOps squareCfg (initState squareCfg)
            rowDemoOps).1 + squareCfg.verticalGap,
        (execOps squareCfg (initState squareCfg) rowDemoOps).1.currentZ⟩ :=
  ⟨(row_height_tracks_layer_max squareCfg (by decide) (by decide) (by decide)
      rowDemoOps (by decide)).1,
   (row_height_tracks_layer_max squareCfg (by decide) (by decide) (by decide)
      rowDemoOps (by decide)).2 9 1 (by decide) (by decide)⟩

end Atlas
